import Mathlib

/-!
Shallow embedding of the algorithm-agnostic unfolding framework implemented in
`src/RooUnfold.cxx` (class template `RooUnfoldT`): the lazily-filled cache of
derived quantities with its validity flags, the error-treatment dispatch of
`UnfoldWithErrors`, the SVD-based matrix inversion diagnostics, the toy engine
(`RunToys` / `GetErrMat` / `RunBiasAsimovToys`) and the bias-estimation
aggregation of `CalculateBias`.

Modelling conventions:
* `double` values are modelled by `ℚ` wherever the code only uses field
  arithmetic; square roots (`TMath::Sqrt`) map the rational state into `ℝ`.
* `TVectorD` / `TMatrixD` are lists of rationals / lists of rows.  ROOT's
  element access `operator()` is range checked: an out-of-bounds write is
  rejected (the reference returned is a scratch cell), an out-of-bounds read
  yields no stored data; we model the write as a no-op (`List.set` out of
  range) and the read as the default value 0.
* the virtual algorithm hooks (`Unfold`, `GetCov`), the external SVD solver
  (`TDecompSVD`) and the random stream (`TRandom` via `RooUnfolding::randomize`)
  are external collaborators; they enter the embedding as an explicit
  `Strategy` record of outcome functions, while every piece of control flow,
  flag discipline and arithmetic of `RooUnfold.cxx` itself is translated
  directly.
* a ghost counter `unfoldCalls` counts the invocations of the algorithm's
  `Unfold` hook (the call-count instrumentation point used to state that the
  framework does or does not re-run the unfolding); `rndState` counts the
  draws consumed from the shared random stream.
-/

namespace RooUnfold

/-- Bin-content vectors (`TVectorD`). -/
abbrev Vec := List ℚ

/-- Matrices (`TMatrixD`), stored as a list of rows. -/
abbrev Mat := List Vec

/-- Element read of a vector; out-of-range reads yield 0 (no stored data). -/
def vecGet (v : Vec) (i : ℕ) : ℚ := v.getD i 0

/-- Element write of a vector; out-of-range writes are dropped, mirroring
ROOT's range-checked `operator()`. -/
def vecSet (v : Vec) (i : ℕ) (x : ℚ) : Vec := v.set i x

/-- Element read of a matrix. -/
def matGet (m : Mat) (i j : ℕ) : ℚ := (m.getD i []).getD j 0

/-- Element write of a matrix; out-of-range writes are dropped. -/
def matSet (m : Mat) (i j : ℕ) (x : ℚ) : Mat := m.set i (vecSet (m.getD i []) j x)

/-- Zero-filled vector, as produced by `TVectorD(n)`. -/
def zeroVec (n : ℕ) : Vec := List.replicate n 0

/-- Zero-filled matrix, as produced by `TMatrixD(r,c)`. -/
def zeroMat (r c : ℕ) : Mat := List.replicate r (zeroVec c)

/-- `TMatrixT::ResizeTo`: keeps the overlapping entries, zero-fills the rest. -/
def resizeMat (m : Mat) (r c : ℕ) : Mat :=
  (List.range r).map (fun i => (List.range c).map (fun j => matGet m i j))

/-- Elementwise difference over a fixed index range, as the helper
`subtract<Hist,TVectorD>(rec, hTrue, overflow)` produces it: the difference of
the cached result vector and the truth histogram contents, bin by bin.
Modelled from the spec: the histogram-to-vector conversion layer is external,
so the truth histogram is already given as a flat vector here. -/
def subVecN (n : ℕ) (v w : Vec) : Vec :=
  (List.range n).map (fun i => vecGet v i - vecGet w i)

/-- `TVectorD` subtraction `v - w` (equal-length operands in all uses). -/
def subTV (v w : Vec) : Vec := List.zipWith (fun a b => a - b) v w

/-- The error-treatment tags of `RooUnfolding::ErrorTreatment`. -/
inductive ErrorTreatment
  | kNoError
  | kErrors
  | kCovariance
  | kCovToy
  | kRooFit
  | kDefault
deriving DecidableEq

/-- Modelled from the spec: the systematics-inclusion policy tags
(`RooUnfolding::SystematicsTreatment`, declared in a header outside `src/`)
that the toy engine consults: include nothing, exclude measurement noise,
or randomize everything including the response. -/
inductive Systematics
  | kNoSystematics
  | kNoMeasured
  | kAll
deriving DecidableEq

/-- The mutable bag of derived quantities of `RooUnfoldT::Cache`, with the
member names of the source.  Pointer members that are null in a fresh cache
(`_vMes`, `_eMes`, `_covMes`) are `Option`s. -/
structure Cache where
  _minparm : ℚ
  _maxparm : ℚ
  _stepsizeparm : ℚ
  _defaultparm : ℚ
  _unfolded : Bool
  _fail : Bool
  _haveCov : Bool
  _haveWgt : Bool
  _have_err_mat : Bool
  _haveBias : Bool
  _haveErrors : Bool
  _rec : Vec
  _cov : Mat
  _wgt : Mat
  _variances : Vec
  _err_mat : Mat
  _bias : Vec
  _sigbias : Vec
  _vMes : Option Vec
  _eMes : Option Vec
  _covMes : Option Mat
deriving DecidableEq

/-- The freshly constructed cache `Cache::Cache()`: every flag false, the
vectors and matrices at their size-1 zero-filled initial values, the cached
pointers null. -/
def Cache.init : Cache where
  _minparm := 0
  _maxparm := 0
  _stepsizeparm := 0
  _defaultparm := 0
  _unfolded := false
  _fail := false
  _haveCov := false
  _haveWgt := false
  _have_err_mat := false
  _haveBias := false
  _haveErrors := false
  _rec := [0]
  _cov := [[0]]
  _wgt := [[0]]
  _variances := [0]
  _err_mat := [[0]]
  _bias := [0]
  _sigbias := [0]
  _vMes := none
  _eMes := none
  _covMes := none

/-- The engine state of a `RooUnfoldT` instance: configuration members plus
the cache.  `_meas` holds the (cloned) measured distribution already converted
to a flat vector; `unfoldCalls` and `rndState` are the ghost instrumentation
counters described in the header comment. -/
structure UnfoldState where
  _nm : ℕ
  _nt : ℕ
  _verbose : ℤ
  _overflow : Bool
  _dosys : Systematics
  _NToys : ℤ
  _withError : ErrorTreatment
  _meas : Vec
  _covMes : Option Mat
  cache : Cache
  unfoldCalls : ℕ
  rndState : ℕ
deriving DecidableEq

/-- The data the engine extracts from `TDecompSVD`: the condition number, the
convergence flag of `Invert(ok)`, and the (pseudo-)inverse it writes. -/
structure SVDDecomp where
  condition : ℚ
  invertOk : Bool
  inverse : Mat
deriving DecidableEq

/-- The external collaborators of one engine instance: the algorithm's virtual
hooks, the SVD solver, the random stream, and the response-model accessors that
the toy engine consults.  `unfoldImpl` maps the current measured vector to the
result vector the algorithm would store (`none` = the algorithm returns without
setting `_unfolded`); `covImpl` is the covariance a `GetCov` override would
store; `svdOf` is the outcome of `TDecompSVD` on a matrix; `rand` is the
variate stream indexed by draw number; `vtruth`, `vfolded` are
`RooUnfoldResponse::Vtruth` / `Vfolded`. -/
structure Strategy where
  unfoldImpl : Vec → Option Vec
  covImpl : Option Mat
  svdOf : Mat → SVDDecomp
  rand : ℕ → Vec → Vec
  vtruth : Vec
  vfolded : Vec → Vec

/-- The data `SetResponse` extracts from a (non-null) response model. -/
structure Response where
  nbinsMeasured : ℕ
  nbinsTruth : ℕ
  useOverflow : Bool
deriving DecidableEq

/-- `RooUnfoldT::GetSettings` (base version): zeroes the regularisation
parameter bounds stored in the cache. -/
def GetSettings (s : UnfoldState) : UnfoldState :=
  { s with cache := { s.cache with
      _minparm := 0, _maxparm := 0, _stepsizeparm := 0, _defaultparm := 0 } }

/-- `RooUnfoldT::Init`: zero the configuration members (null response and
measured histogram, zero bin counts), set the defaults (`verbose = 1`,
`NToys = 50`, no systematics), then `GetSettings()`. -/
def Init (s : UnfoldState) : UnfoldState :=
  GetSettings { s with
    _meas := [], _nm := 0, _nt := 0, _verbose := 1, _overflow := false,
    _dosys := Systematics.kNoSystematics, _covMes := none, _NToys := 50 }

/-- `RooUnfoldT::ClearCache`: replace the cache by a fresh one. -/
def ClearCache (s : UnfoldState) : UnfoldState :=
  { s with cache := Cache.init }

/-- `RooUnfoldT::Reset`: `ClearCache()` then `Init()`. -/
def Reset (s : UnfoldState) : UnfoldState := Init (ClearCache s)

/-- `RooUnfoldT::SetResponse` (non-null response): record the overflow flag
and the measured/truth bin counts.  Ownership/cloning of the response object
is external. -/
def SetResponse (s : UnfoldState) (r : Response) : UnfoldState :=
  { s with _overflow := r.useOverflow, _nm := r.nbinsMeasured, _nt := r.nbinsTruth }

/-- `RooUnfoldT::SetMeasured(hist)`: store a clone of the measured
distribution and replace the cache by a fresh one. -/
def SetMeasured (s : UnfoldState) (m : Vec) : UnfoldState :=
  { s with _meas := m, cache := Cache.init }

/-- `RooUnfoldT::SetMeasuredCov`: replace the cache by a fresh one and store
the measured covariance. -/
def SetMeasuredCov (s : UnfoldState) (c : Mat) : UnfoldState :=
  { s with cache := Cache.init, _covMes := some c }

/-- `RooUnfoldT::Setup`: `Reset()`, then `SetResponse`, then `SetMeasured`. -/
def Setup (s : UnfoldState) (r : Response) (m : Vec) : UnfoldState :=
  SetMeasured (SetResponse (Reset s) r) m

/-- `RooUnfoldT::ForceRecalculation`: replace the cache by a fresh one (the
response model's own cache clearing is external to this state). -/
def ForceRecalculation (s : UnfoldState) : UnfoldState :=
  { s with cache := Cache.init }

/-- `RooUnfoldT::IncludeSystematics`: on a change of the systematics policy,
clear the cache and store the new policy. -/
def IncludeSystematics (s : UnfoldState) (d : Systematics) : UnfoldState :=
  if d ≠ s._dosys then { ClearCache s with _dosys := d } else s

/-- `RooUnfoldT::Vmeasured`: the measured distribution as a vector, computed
from `_meas` on first use and cached in `_cache._vMes`. -/
def Vmeasured (s : UnfoldState) : Vec × UnfoldState :=
  match s.cache._vMes with
  | some v => (v, s)
  | none => (s._meas, { s with cache := { s.cache with _vMes := some s._meas } })

/-- Set the sticky fail flag `_cache._fail`. -/
def setFail (s : UnfoldState) : UnfoldState :=
  { s with cache := { s.cache with _fail := true } }

/-- One invocation of the virtual `Unfold()` hook: the algorithm reads the
current measured vector; on success it stores the result vector and sets
`_cache._unfolded`, otherwise it leaves the cache untouched.  The ghost
counter `unfoldCalls` records the invocation. -/
def callUnfold (st : Strategy) (s0 : UnfoldState) : UnfoldState :=
  let p := Vmeasured s0
  let s := { p.2 with unfoldCalls := p.2.unfoldCalls + 1 }
  match st.unfoldImpl p.1 with
  | some r => { s with cache := { s.cache with _rec := r, _unfolded := true } }
  | none => s

/-- `RooUnfoldT::Vunfold`: if not yet unfolded and not failed, invoke
`Unfold()`; if still not unfolded, set the sticky fail flag and, only when the
result vector has zero rows and `_nt > 0`, resize it to `_nt`; return the
cached result vector. -/
def Vunfold (st : Strategy) (s0 : UnfoldState) : Vec × UnfoldState :=
  if s0.cache._unfolded = false then
    let s := if s0.cache._fail = false then callUnfold st s0 else s0
    if s.cache._unfolded = false then
      let s := setFail s
      let s := if 0 < s._nt ∧ s.cache._rec.length = 0 then
          { s with cache := { s.cache with _rec := zeroVec s._nt } } else s
      (s.cache._rec, s)
    else (s.cache._rec, s)
  else (s0.cache._rec, s0)

/-- The virtual `GetCov()` hook: on success the produced covariance is stored
and `_haveCov` set (the base class always succeeds by propagating the measured
covariance; concrete algorithms may fail, hence the `Option`). -/
def GetCov (st : Strategy) (s : UnfoldState) : UnfoldState :=
  match st.covImpl with
  | some c => { s with cache := { s.cache with _cov := c, _haveCov := true } }
  | none => s

/-- `RooUnfoldT::GetErrorsCovariance`: guard `_withError == kErrors` (throwing
`std::runtime_error` otherwise, modelled as `none`); ensure the covariance is
available; copy its diagonal into `_variances` and set `_haveErrors`. -/
def GetErrorsCovariance (st : Strategy) (s0 : UnfoldState) : Option UnfoldState :=
  if s0._withError ≠ ErrorTreatment.kErrors then none
  else
    let s := if s0.cache._haveCov = false then GetCov st s0 else s0
    if s.cache._haveCov = false then some s
    else some { s with cache := { s.cache with
        _variances := (List.range s._nt).map (fun i => matGet s.cache._cov i i),
        _haveErrors := true } }

/-- `RooUnfoldT::GetErrors` (base version): delegates to
`GetErrorsCovariance`. -/
def GetErrors (st : Strategy) (s : UnfoldState) : Option UnfoldState :=
  GetErrorsCovariance st s

/-- `RooUnfoldT::InvertMatrix` on the outcome of the external SVD solver:
status 1 is ok, 2 flags a negative condition number, 3 a condition number
above `1e17`; a non-converged `Invert` returns status 0 (inversion failed).
The inverse reference is written before the convergence check, so the second
component is the solver's output in every case. -/
def InvertMatrix (d : SVDDecomp) : ℤ × Mat :=
  let ok : ℤ := if d.condition < 0 then 2
    else if (10 : ℚ) ^ 17 < d.condition then 3 else 1
  if d.invertOk = false then (0, d.inverse) else (ok, d.inverse)

/-- `RooUnfoldT::GetWgt`: ensure the covariance is available, invert it with
`InvertMatrix`; the weight matrix member receives the solver output, and
`_haveWgt` is set only when the inversion status is nonzero. -/
def GetWgt (st : Strategy) (s0 : UnfoldState) : UnfoldState :=
  let s := if s0.cache._haveCov = false then GetCov st s0 else s0
  if s.cache._haveCov = false then s
  else
    let r := InvertMatrix (st.svdOf s.cache._cov)
    let s := { s with cache := { s.cache with _wgt := r.2 } }
    if r.1 = 0 then s else { s with cache := { s.cache with _haveWgt := true } }

/-- One iteration of the toy loop of `RooUnfoldT<TH1,TH2>::RunToys`: force a
full cache recalculation, materialise the measured vector, randomize it in
place (unless the systematics policy excludes measurement noise; the
`kAll` response-toy branch mutates the external response model and leaves this
state unchanged), then unfold the randomized state via `Vunfold`. -/
def runToyStep (st : Strategy) (s0 : UnfoldState) : Vec × UnfoldState :=
  let s := ForceRecalculation s0
  let p := Vmeasured s
  let s := if p.2._dosys ≠ Systematics.kNoMeasured then
      { p.2 with
        cache := { p.2.cache with _vMes := some (st.rand p.2.rndState p.1) },
        rndState := p.2.rndState + 1 }
    else p.2
  Vunfold st s

/-- `RooUnfoldT<TH1,TH2>::RunToys`: save the error treatment and set it to
`kDefault`, run `ntoys` randomized repetitions collecting the unfolded result
vectors, then force one final cache recalculation and restore the error
treatment.  The per-toy error vectors and chi-squared values the source also
collects are consumed only by callers outside the embedded claims, and every
trace of their computation is erased by the cache recalculation that starts
the next repetition (or ends the loop), so they are not returned here. -/
def RunToysTH1 (st : Strategy) (s0 : UnfoldState) (ntoys : ℕ) :
    List Vec × UnfoldState :=
  let errorType := s0._withError
  let s := { s0 with _withError := ErrorTreatment.kDefault }
  let r := (List.range ntoys).foldl
    (fun (acc : List Vec × UnfoldState) _ =>
      let p := runToyStep st acc.2
      (acc.1 ++ [p.1], p.2))
    ([], s)
  (r.1, { ForceRecalculation r.2 with _withError := errorType })

/-- `RooUnfoldT::RunToy`: the `ntoys = 1` form of `RunToys`, returning the
single toy result vector. -/
def RunToy (st : Strategy) (s : UnfoldState) : Vec × UnfoldState :=
  let r := RunToysTH1 st s 1
  (r.1.getD 0 [], r.2)

/-- The per-entry sample-covariance expression of `GetErrMat`:
`(Σ xᵢxⱼ − Σxᵢ·Σxⱼ/N)/(N−1)`. -/
def errMatEntry (N : ℤ) (xisum : Vec) (xijsum : Mat) (i j : ℕ) : ℚ :=
  (matGet xijsum i j - vecGet xisum i * vecGet xisum j / (N : ℚ)) / ((N : ℚ) - 1)

/-- `RooUnfoldT::GetErrMat`: with `_NToys ≤ 1` return immediately; otherwise
resize `_err_mat` to `_nt×_nt`, run `_NToys` single-toy repetitions through
`RunToy` while accumulating the per-bin sums and products of the toy results,
then write the sample-covariance entries into `_cache._err_mat` and set
`_have_err_mat`. -/
def GetErrMat (st : Strategy) (s0 : UnfoldState) : UnfoldState :=
  if s0._NToys ≤ 1 then s0
  else
    let s := { s0 with cache := { s0.cache with
        _err_mat := resizeMat s0.cache._err_mat s0._nt s0._nt } }
    let N := s._NToys.toNat
    let loop := (List.range N).foldl
      (fun (acc : Vec × Mat × UnfoldState) _ =>
        let p := RunToy st acc.2.2
        let xi := fun i => vecGet p.1 i
        ((List.range s._nt).map (fun i => vecGet acc.1 i + xi i),
         (List.range s._nt).map (fun i =>
           (List.range s._nt).map (fun j => matGet acc.2.1 i j + xi i * xi j)),
         p.2))
      (zeroVec s._nt, zeroMat s._nt s._nt, s)
    let s1 := loop.2.2
    let em := (List.range s._nt).foldl
      (fun m i => (List.range s._nt).foldl
        (fun m j => matSet m i j (errMatEntry s._NToys loop.1 loop.2.1 i j)) m)
      s1.cache._err_mat
    { s1 with cache := { s1.cache with _err_mat := em, _have_err_mat := true } }

/-- The first two statements of the error-dispatch part of
`UnfoldWithErrors`: invalidate the error flag when the requested treatment
differs from the stored one, then store the requested treatment. -/
def uweSetTreatment (s0 : UnfoldState) (withError : ErrorTreatment) : UnfoldState :=
  let s1 := if s0._withError ≠ withError then
      { s0 with cache := { s0.cache with _haveErrors := false } } else s0
  { s1 with _withError := withError }

/-- The body of `UnfoldWithErrors` after the unfolding stage: invalidate the
error flag on a treatment change, store the requested treatment, then either
compute the weight matrix (when weights are requested for the errors or
covariance treatments) or dispatch on the treatment; a failed computation sets
the sticky fail flag.  `none` models a thrown `std::runtime_error`. -/
def uweDispatch (st : Strategy) (s0 : UnfoldState) (withError : ErrorTreatment)
    (getWeights : Bool) : Option (Bool × UnfoldState) :=
  let s := uweSetTreatment s0 withError
  if getWeights = true ∧ (withError = ErrorTreatment.kErrors ∨
      withError = ErrorTreatment.kCovariance) then
    let s2 := if s.cache._haveWgt = false then GetWgt st s else s
    some (s2.cache._haveWgt, if s2.cache._haveWgt = true then s2 else setFail s2)
  else
    match withError with
    | ErrorTreatment.kErrors | ErrorTreatment.kRooFit =>
      match (if s.cache._haveErrors = false then GetErrors st s else some s) with
      | none => none
      | some s2 =>
        some (s2.cache._haveErrors,
          if s2.cache._haveErrors = true then s2 else setFail s2)
    | ErrorTreatment.kCovariance =>
      let s2 := if s.cache._haveCov = false then GetCov st s else s
      some (s2.cache._haveCov, if s2.cache._haveCov = true then s2 else setFail s2)
    | ErrorTreatment.kCovToy =>
      let s2 := if s.cache._have_err_mat = false then GetErrMat st s else s
      some (s2.cache._have_err_mat,
        if s2.cache._have_err_mat = true then s2 else setFail s2)
    | _ => some (true, s)

/-- `RooUnfoldT::UnfoldWithErrors`: if not yet unfolded, short-circuit to
`false` when the sticky fail flag is set, otherwise invoke `Unfold()` once and
fail stickily when it does not deliver; then dispatch the requested error
treatment. -/
def UnfoldWithErrors (st : Strategy) (s0 : UnfoldState)
    (withError : ErrorTreatment) (getWeights : Bool) :
    Option (Bool × UnfoldState) :=
  if s0.cache._unfolded = false then
    if s0.cache._fail = true then some (false, s0)
    else
      let s := callUnfold st s0
      if s.cache._unfolded = false then some (false, setFail s)
      else uweDispatch st s withError getWeights
  else uweDispatch st s0 withError getWeights

/-- The per-bin error entry `EunfoldV` computes on a successful unfold: the
square root of the absolute value of the variance member the treatment
selects. -/
noncomputable def euEntry (s : UnfoldState) (t : ErrorTreatment) (i : ℕ) : ℝ :=
  match t with
  | ErrorTreatment.kNoError => Real.sqrt |((vecGet s.cache._rec i : ℚ) : ℝ)|
  | ErrorTreatment.kErrors => Real.sqrt |((vecGet s.cache._variances i : ℚ) : ℝ)|
  | ErrorTreatment.kRooFit => Real.sqrt |((vecGet s.cache._variances i : ℚ) : ℝ)|
  | ErrorTreatment.kCovariance => Real.sqrt |((matGet s.cache._cov i i : ℚ) : ℝ)|
  | ErrorTreatment.kCovToy => Real.sqrt |((matGet s.cache._err_mat i i : ℚ) : ℝ)|
  | ErrorTreatment.kDefault => 0

/-- `RooUnfoldT::EunfoldV`: a zero-initialised vector of `_nt` errors is
returned as-is when `UnfoldWithErrors` fails; otherwise each entry is the
square root of the absolute value of the selected variance.  The unrecognised
treatment (`kDefault` reaching the switch) throws, modelled as `none`. -/
noncomputable def EunfoldV (st : Strategy) (s : UnfoldState)
    (withError : ErrorTreatment) : Option (List ℝ × UnfoldState) :=
  match UnfoldWithErrors st s withError false with
  | none => none
  | some (false, s1) => some (List.replicate s1._nt (0 : ℝ), s1)
  | some (true, s1) =>
    match withError with
    | ErrorTreatment.kDefault => none
    | t => some ((List.range s1._nt).map (euEntry s1 t), s1)

/-- `RooUnfoldT::Wunfold`: a zero `_nt×_nt` matrix when `UnfoldWithErrors`
(with weights requested) fails; otherwise for `kNoError` a diagonal of
guarded reciprocals of the result vector, for `kErrors`/`kRooFit` the diagonal
of the weight matrix, for `kCovariance` the weight matrix, for `kCovToy` the
SVD inverse of the toy error matrix (status ignored).  The unrecognised
treatment throws, modelled as `none`. -/
def Wunfold (st : Strategy) (s : UnfoldState) (withError : ErrorTreatment) :
    Option (Mat × UnfoldState) :=
  match UnfoldWithErrors st s withError true with
  | none => none
  | some (false, s1) => some (zeroMat s1._nt s1._nt, s1)
  | some (true, s1) =>
    match withError with
    | ErrorTreatment.kNoError =>
      some ((List.range s1._nt).foldl
        (fun m i => if vecGet s1.cache._rec i ≠ 0 then
            matSet m i i (1 / vecGet s1.cache._rec i) else m)
        (zeroMat s1._nt s1._nt), s1)
    | ErrorTreatment.kErrors | ErrorTreatment.kRooFit =>
      some ((List.range s1._nt).foldl
        (fun m i => matSet m i i (matGet s1.cache._wgt i i))
        (zeroMat s1._nt s1._nt), s1)
    | ErrorTreatment.kCovariance => some (s1.cache._wgt, s1)
    | ErrorTreatment.kCovToy =>
      some ((InvertMatrix (st.svdOf s1.cache._err_mat)).2, s1)
    | ErrorTreatment.kDefault => none

/-- Modelled from the helper `ABAT(resmat, wgt, chi2mat)` with the 1×`n` row
`resmat`: the quadratic form `r·W·rᵀ`. -/
def quadForm (n : ℕ) (v : Vec) (w : Mat) : ℚ :=
  ((List.range n).map (fun i =>
    ((List.range n).map (fun j => vecGet v i * matGet w i j * vecGet v j)).sum)).sum

/-- `RooUnfoldT::Chi2`: `-1` when `UnfoldWithErrors` fails; for the
covariance-based treatments the quadratic form of the residual with the
`Wunfold` weight matrix, for the diagonal treatments the accumulated
`(residual/error)²` over bins with positive error; in both branches a set
sticky fail flag yields `-1`. -/
noncomputable def Chi2 (st : Strategy) (s : UnfoldState) (hTrue : Vec)
    (DoChi2 : ErrorTreatment) : Option (ℝ × UnfoldState) :=
  match UnfoldWithErrors st s DoChi2 false with
  | none => none
  | some (false, s1) => some (-1, s1)
  | some (true, s1) =>
    let res := subVecN s1._nt s1.cache._rec hTrue
    if DoChi2 = ErrorTreatment.kCovariance ∨ DoChi2 = ErrorTreatment.kCovToy then
      match Wunfold st s1 DoChi2 with
      | none => none
      | some (wgt, s2) =>
        if s2.cache._fail = true then some (-1, s2)
        else some (((quadForm s2._nt res wgt : ℚ) : ℝ), s2)
    else
      match EunfoldV st s1 DoChi2 with
      | none => none
      | some (eunfold, s2) =>
        if s2.cache._fail = true then some (-1, s2)
        else some ((List.range s2._nt).foldl
          (fun c i =>
            let e := eunfold.getD i 0
            if e ≤ 0 then c
            else c + ((vecGet res i : ℚ) : ℝ) / e * (((vecGet res i : ℚ) : ℝ) / e))
          0, s2)

/-- The chi-squared value the specification describes for the diagonal
treatments: the sum over truth bins with strictly positive per-bin error of
`((result − reference)/σ)²`, zero-error bins skipped. -/
noncomputable def chi2DiagSpec (s : UnfoldState) (hTrue : Vec)
    (t : ErrorTreatment) : ℝ :=
  ∑ i in Finset.range s._nt,
    if 0 < euEntry s t i then
      (((vecGet (subVecN s._nt s.cache._rec hTrue) i : ℚ) : ℝ) / euEntry s t i) ^ 2
    else 0

/-- One guarded pull of the closure-bias loop of `CalculateBias`
(`kBiasClosure` branch): for a bin whose toy error entry is nonzero, store the
relative pull `(toy − truth)/toy` in the pull matrix and add the freshly
stored entry to the per-bin accumulator; other bins are left untouched. -/
def pullStep (truth tui tei : Vec) (i : ℕ) (acc : Mat × Vec) (j : ℕ) :
    Mat × Vec :=
  if vecGet tei j ≠ 0 then
    let m := matSet acc.1 i j ((vecGet tui j - vecGet truth j) / vecGet tui j)
    (m, vecSet acc.2 j (vecGet acc.2 j + matGet m i j))
  else acc

/-- The double loop of the closure-bias branch: over toys `i`, over the bins
of the `i`-th toy result, accumulating the pull matrix
(`TMatrixD pull_results(ntoys,_nt)`) and the per-bin pull sums
(`TVectorD bias(_nt)`). -/
def closureLoop (truth : Vec) (tu te : List Vec) (ntoys nt : ℕ) : Mat × Vec :=
  (List.range ntoys).foldl
    (fun acc i => (List.range (tu.getD i []).length).foldl
      (pullStep truth (tu.getD i []) (te.getD i []) i) acc)
    (zeroMat ntoys nt, zeroVec nt)

/-- The closure bias vector `_cache._bias`: the accumulated per-bin pull sums
divided by `ntoys`. -/
def closureBiasVec (truth : Vec) (tu te : List Vec) (ntoys nt : ℕ) : Vec :=
  let acc := closureLoop truth tu te ntoys nt
  (List.range nt).map (fun i => vecGet acc.2 i / (ntoys : ℚ))

/-- The sum of squared deviations of the stored pulls from the per-bin mean,
as accumulated by the variance loop of the closure-bias branch. -/
def closureSum2 (truth : Vec) (tu te : List Vec) (ntoys nt : ℕ) (j : ℕ) : ℚ :=
  let acc := closureLoop truth tu te ntoys nt
  let bias := closureBiasVec truth tu te ntoys nt
  (List.range ntoys).foldl
    (fun c i =>
      let val := matGet acc.1 i j - vecGet bias j
      c + val * val) 0

/-- The closure bias-uncertainty vector `_cache._sigbias`: for more than one
toy the standard error of the mean `sqrt((sum2/(ntoys−1))/ntoys)`, for the
pathological single-toy case the raw spread `sqrt(sum2)`. -/
noncomputable def closureSigbias (truth : Vec) (tu te : List Vec)
    (ntoys nt : ℕ) : List ℝ :=
  (List.range nt).map (fun j =>
    let sum2 := closureSum2 truth tu te ntoys nt j
    if 1 < ntoys then
      Real.sqrt (((sum2 / ((ntoys : ℚ) - 1) / (ntoys : ℚ) : ℚ) : ℝ))
    else Real.sqrt ((sum2 : ℝ)))

/-- The first `K` outer iterations of the closure-bias double loop
(`closureLoop` is the full run with `K = ntoys`); used to reason about the
loop by induction over the processed toys. -/
def closureLoopK (truth : Vec) (tu te : List Vec) (ntoys nt K : ℕ) : Mat × Vec :=
  (List.range K).foldl
    (fun acc i => (List.range (tu.getD i []).length).foldl
      (pullStep truth (tu.getD i []) (te.getD i []) i) acc)
    (zeroMat ntoys nt, zeroVec nt)

/-- Modelled from the spec claim wording, for comparison with the source: the
closure bias with pulls recorded for every bin whose toy-unfolded VALUE is
nonzero (the source instead guards on the toy error entry). -/
def closureBiasClaimed (truth : Vec) (tu : List Vec) (ntoys nt : ℕ) : Vec :=
  (List.range nt).map (fun j =>
    (((List.range ntoys).map (fun i =>
      if vecGet (tu.getD i []) j ≠ 0 then
        (vecGet (tu.getD i []) j - vecGet truth j) / vecGet (tu.getD i []) j
      else 0)).sum) / (ntoys : ℚ))

/-- The inner loop of `RooUnfoldT<TH1,TH2>::RunBiasAsimovToys`: set the cached
measured vector to the folded nominal truth, randomize it, unfold via
`Vunfold`, and push the difference of the outer truth vector and the unfolded
result. -/
def runBiasInner (st : Strategy) (vtruth : Vec) (acc : List Vec × UnfoldState)
    (_j : ℕ) : List Vec × UnfoldState :=
  let s0 := acc.2
  let s := { s0 with
    cache := { s0.cache with _vMes := some (st.rand s0.rndState (st.vfolded st.vtruth)) },
    rndState := s0.rndState + 1 }
  let p := Vunfold st s
  (acc.1 ++ [subTV vtruth p.1], p.2)

/-- The outer loop of `RooUnfoldT<TH1,TH2>::RunBiasAsimovToys`: force a cache
recalculation, materialise and randomize the measured vector (unless
measurement noise is excluded; the `kAll` response-toy branch mutates the
external response model only), take the nominal truth vector, then run the
inner loop. -/
def runBiasOuter (st : Strategy) (ntoys : ℕ) (acc : List Vec × UnfoldState)
    (_i : ℕ) : List Vec × UnfoldState :=
  let s := ForceRecalculation acc.2
  let p := Vmeasured s
  let s := if p.2._dosys ≠ Systematics.kNoMeasured then
      { p.2 with
        cache := { p.2.cache with _vMes := some (st.rand p.2.rndState p.1) },
        rndState := p.2.rndState + 1 }
    else p.2
  let vtruth := st.vtruth
  (List.range ntoys).foldl (runBiasInner st vtruth) (acc.1, s)

/-- `RooUnfoldT<TH1,TH2>::RunBiasAsimovToys`: `ntoys` outer repetitions each
running `ntoys` inner repetitions, followed by a final cache
recalculation. -/
def RunBiasAsimovToys (st : Strategy) (s : UnfoldState) (ntoys : ℕ) :
    List Vec × UnfoldState :=
  let r := (List.range ntoys).foldl (runBiasOuter st ntoys) ([], s)
  (r.1, ForceRecalculation r.2)

/-- The per-bin mean of the collected deviation vectors, as the
`kBiasAsimov` branch of `CalculateBias` stores it into `_cache._bias`. -/
def asimovBias (nt : ℕ) (bias : List Vec) : Vec :=
  (List.range nt).map (fun i =>
    ((bias.map (fun v => vecGet v i)).sum) / ((bias.length : ℚ)))

/-- The per-bin standard error of the mean of the collected deviation
vectors, via `var = |Σx² − Σx·mean|/(n−1)` and `sqrt(var/n)`, as the
`kBiasAsimov` branch stores it into `_cache._sigbias`. -/
noncomputable def asimovSigbias (nt : ℕ) (bias : List Vec) : List ℝ :=
  (List.range nt).map (fun i =>
    let n := bias.length
    let sum := (bias.map (fun v => vecGet v i)).sum
    let sum2 := (bias.map (fun v => vecGet v i * vecGet v i)).sum
    let mean := sum / (n : ℚ)
    Real.sqrt (((|sum2 - sum * mean| / ((n : ℚ) - 1) / (n : ℚ) : ℚ) : ℝ)))

/-- An algorithm whose `Unfold()` hook always fails (returns without setting
`_unfolded`), for exercising the sticky failure path. -/
def failStrategy : Strategy where
  unfoldImpl := fun _ => none
  covImpl := none
  svdOf := fun m => ⟨1, true, m⟩
  rand := fun _ v => v
  vtruth := [1, 1]
  vfolded := fun v => v

/-- A two-truth-bin engine state freshly set up on the measured vector
`(1, 2)`. -/
def failState : UnfoldState where
  _nm := 2
  _nt := 2
  _verbose := 1
  _overflow := false
  _dosys := Systematics.kNoSystematics
  _NToys := 50
  _withError := ErrorTreatment.kNoError
  _meas := [1, 2]
  _covMes := none
  cache := Cache.init
  unfoldCalls := 0
  rndState := 0

/-- The state after one failed `UnfoldWithErrors` on `failState`: the
algorithm was invoked once, the measured vector got cached, the sticky fail
flag is set. -/
def failedState : UnfoldState :=
  { failState with
    cache := { Cache.init with _vMes := some [1, 2], _fail := true },
    unfoldCalls := 1 }

/-- An identity algorithm (`Unfold()` copies the measured vector) together
with a random stream that adds `2k` to every bin on the `k`-th draw. -/
def toyStrategy : Strategy where
  unfoldImpl := fun v => some v
  covImpl := some [[1, 0], [0, 1]]
  svdOf := fun m => ⟨1, true, m⟩
  rand := fun k v => v.map (fun q => q + 2 * (k : ℚ))
  vtruth := [1, 1]
  vfolded := fun v => v

/-- A two-truth-bin engine state with two toys configured, measured vector
`(1, 2)`: under `toyStrategy` the two toy results are `(1, 2)` and
`(3, 4)`. -/
def toyState : UnfoldState where
  _nm := 2
  _nt := 2
  _verbose := 1
  _overflow := false
  _dosys := Systematics.kNoSystematics
  _NToys := 2
  _withError := ErrorTreatment.kNoError
  _meas := [1, 2]
  _covMes := none
  cache := Cache.init
  unfoldCalls := 0
  rndState := 0

/-- `toyState` after a successful unfold: result vector `(5, 6)` cached. -/
def unfoldedToyState : UnfoldState :=
  { toyState with cache := { Cache.init with _unfolded := true, _rec := [5, 6] } }

/-- The state `UnfoldWithErrors(kCovToy)` leaves behind from
`unfoldedToyState`: the toy loop wiped the cache (result gone, `_unfolded`
false), the toy error matrix shrank to the 1×1 `[[2]]` yet is flagged
available, and the algorithm was re-run once per toy. -/
def covToyAfterState : UnfoldState :=
  { toyState with
    _withError := ErrorTreatment.kCovToy,
    cache := { Cache.init with _err_mat := [[2]], _have_err_mat := true },
    unfoldCalls := 2,
    rndState := 2 }

/-- A one-bin identity algorithm whose `GetCov` override provides `[[9]]`,
with a random stream adding `k` on the `k`-th draw. -/
def oneStrategy : Strategy where
  unfoldImpl := fun v => some v
  covImpl := some [[9]]
  svdOf := fun m => ⟨1, true, m⟩
  rand := fun k v => v.map (fun q => q + (k : ℚ))
  vtruth := [4]
  vfolded := fun v => v

/-- A one-bin engine state already successfully unfolded to `(4)`. -/
def oneState : UnfoldState where
  _nm := 1
  _nt := 1
  _verbose := 1
  _overflow := false
  _dosys := Systematics.kNoSystematics
  _NToys := 50
  _withError := ErrorTreatment.kNoError
  _meas := [4]
  _covMes := none
  cache := { Cache.init with _unfolded := true, _rec := [4] }
  unfoldCalls := 1
  rndState := 0

/-- The error vector `EunfoldV(kNoError)` produces on `oneState`. -/
noncomputable def oneErrVec : List ℝ := [Real.sqrt |((4 : ℚ) : ℝ)|]

/-- A two-bin engine state already unfolded to `(3, 0)`: the second bin is
exactly zero, exercising the guarded reciprocal of `Wunfold(kNoError)`. -/
def wState : UnfoldState where
  _nm := 2
  _nt := 2
  _verbose := 1
  _overflow := false
  _dosys := Systematics.kNoSystematics
  _NToys := 50
  _withError := ErrorTreatment.kNoError
  _meas := [3, 0]
  _covMes := none
  cache := { Cache.init with _unfolded := true, _rec := [3, 0] }
  unfoldCalls := 1
  rndState := 0

/-- The environment of the Asimov double-toy evaluation: one bin, identity
response (`Vfolded = id`) with nominal truth `(4)`, identity algorithm, and a
random stream adding `k` on the `k`-th draw. -/
def asimovStrategy : Strategy where
  unfoldImpl := fun v => some v
  covImpl := none
  svdOf := fun m => ⟨1, true, m⟩
  rand := fun k v => v.map (fun q => q + (k : ℚ))
  vtruth := [4]
  vfolded := fun v => v

/-- The truth vector of the concrete closure-bias witness. -/
def c7truth : Vec := [1]

/-- The toy-unfolded vectors of the concrete closure-bias witness. -/
def c7tu : List Vec := [[2], [4]]

/-- The toy error vectors of the concrete closure-bias witness: the second
toy has error zero, so its (nonzero) result is skipped by the guard. -/
def c7te : List Vec := [[1], [0]]

/-- The toy-factory engine state the Asimov evaluation runs on: one bin,
measured vector `(7)`. -/
def asimovState : UnfoldState where
  _nm := 1
  _nt := 1
  _verbose := 0
  _overflow := false
  _dosys := Systematics.kNoSystematics
  _NToys := 50
  _withError := ErrorTreatment.kNoError
  _meas := [7]
  _covMes := none
  cache := Cache.init
  unfoldCalls := 0
  rndState := 0

/-- Reading a list after a single write: the written value exactly at the
written index when it is in range, the old value everywhere else. -/
theorem getD_set_eq_ite {α : Type} (l : List α) (d : α) (i : ℕ) (x : α) (j : ℕ) :
    (l.set i x).getD j d = if i = j ∧ i < l.length then x else l.getD j d := by
  simp only [List.getD_eq_getElem?_getD, List.getElem?_set]
  by_cases h : i = j
  · subst h
    by_cases h2 : i < l.length
    · simp [h2]
    · simp [h2, List.getElem?_eq_none (le_of_not_lt h2)]
  · simp [h]

/-- Reading a vector after a single element write. -/
theorem vecGet_vecSet (v : Vec) (i : ℕ) (x : ℚ) (j : ℕ) :
    vecGet (vecSet v i x) j = if i = j ∧ i < v.length then x else vecGet v j :=
  getD_set_eq_ite v 0 i x j

/-- Every entry of the zero vector reads as 0. -/
theorem vecGet_zeroVec (n i : ℕ) : vecGet (zeroVec n) i = 0 := by
  simp only [vecGet, zeroVec, List.getD_eq_getElem?_getD, List.getElem?_replicate]
  split <;> simp

/-- Every entry of the zero matrix reads as 0. -/
theorem matGet_zeroMat (r c i j : ℕ) : matGet (zeroMat r c) i j = 0 := by
  simp only [matGet, zeroMat, List.getD_eq_getElem?_getD, List.getElem?_replicate]
  split
  · simp only [Option.getD_some]
    have h := vecGet_zeroVec c j
    simp only [vecGet, zeroVec, List.getD_eq_getElem?_getD] at h
    exact h
  · simp

/-- Writing an element of a matrix does not change the number of rows. -/
theorem matSet_length (m : Mat) (i j : ℕ) (x : ℚ) :
    (matSet m i j x).length = m.length := by
  simp [matSet]

/-- Writing an element of a matrix does not change the length of any row. -/
theorem matSet_rowLength (m : Mat) (i j : ℕ) (x : ℚ) (a : ℕ) :
    ((matSet m i j x).getD a []).length = (m.getD a []).length := by
  unfold matSet
  rw [getD_set_eq_ite]
  split
  · rename_i h
    rw [← h.1]
    simp [vecSet]
  · rfl

/-- Reading a matrix after a single element write. -/
theorem matGet_matSet (m : Mat) (i j : ℕ) (x : ℚ) (a b : ℕ) :
    matGet (matSet m i j x) a b =
      if i = a ∧ j = b ∧ i < m.length ∧ j < (m.getD i []).length then x
      else matGet m a b := by
  unfold matGet matSet
  rw [getD_set_eq_ite]
  by_cases hia : i = a
  · subst hia
    by_cases him : i < m.length
    · rw [if_pos ⟨rfl, him⟩]
      rw [show vecSet (m.getD i []) j x = (m.getD i []).set j x from rfl,
        getD_set_eq_ite]
      by_cases hjb : j = b
      · subst hjb
        by_cases hr : j < (m.getD i []).length <;> simp [hr, him]
      · simp [hjb]
    · simp [him]
  · simp [hia]

/-- Accumulating over an index range is summing. -/
theorem foldl_range_add {M : Type} [AddCommMonoid M] (f : ℕ → M) (n : ℕ) (c : M) :
    (List.range n).foldl (fun acc i => acc + f i) c = c + ∑ i in Finset.range n, f i := by
  induction n generalizing c with
  | zero => simp
  | succ k ih =>
    rw [List.range_succ, List.foldl_append, ih, Finset.sum_range_succ]
    simp [add_assoc]

/-- Reading a mapped range list inside the range. -/
theorem getD_map_range {α : Type} (d : α) (f : ℕ → α) (n i : ℕ) (h : i < n) :
    ((List.range n).map f).getD i d = f i := by
  simp [List.getD_eq_getElem?_getD, List.getElem?_map, List.getElem?_range, h]

/-- Replacing the error-treatment member by its current value is the
identity. -/
theorem withError_update_self (s : UnfoldState) (t : ErrorTreatment)
    (h : s._withError = t) : { s with _withError := t } = s := by
  cases s
  simp_all

/-- Storing a treatment that is already stored changes nothing. -/
theorem uweSetTreatment_self (s : UnfoldState) (t : ErrorTreatment)
    (h : s._withError = t) : uweSetTreatment s t = s := by
  unfold uweSetTreatment
  rw [if_neg (by simp [h])]
  exact withError_update_self s t h

/-- The treatment-storing step keeps the unfolded flag. -/
theorem uweSetTreatment_unfolded (s : UnfoldState) (t : ErrorTreatment) :
    (uweSetTreatment s t).cache._unfolded = s.cache._unfolded := by
  unfold uweSetTreatment
  split <;> rfl

/-- The treatment-storing step stores the treatment. -/
theorem uweSetTreatment_withError (s : UnfoldState) (t : ErrorTreatment) :
    (uweSetTreatment s t)._withError = t := by
  unfold uweSetTreatment
  split <;> rfl

/-- The treatment-storing step keeps the result vector. -/
theorem uweSetTreatment_rec (s : UnfoldState) (t : ErrorTreatment) :
    (uweSetTreatment s t).cache._rec = s.cache._rec := by
  unfold uweSetTreatment
  split <;> rfl

/-- The treatment-storing step keeps the truth-bin count. -/
theorem uweSetTreatment_nt (s : UnfoldState) (t : ErrorTreatment) :
    (uweSetTreatment s t)._nt = s._nt := by
  unfold uweSetTreatment
  split <;> rfl

/-- Claim C4: `InvertMatrix` classifies by the SVD condition number — status 0
when the solver does not converge (no usable inverse), otherwise 2 for a
negative condition number, 3 for a condition number above `1e17`, 1 for the
well-conditioned case; the inverse slot always receives the solver output, so
the inversion is still attempted (and its result still returned) in the
warning cases. -/
theorem claim4_invertMatrix_condition_classification (d : SVDDecomp) :
    (InvertMatrix d).1 = (if d.invertOk = false then 0
      else if d.condition < 0 then 2
      else if (10 : ℚ) ^ 17 < d.condition then 3 else 1) ∧
    (InvertMatrix d).2 = d.inverse := by
  unfold InvertMatrix
  cases h : d.invertOk <;> simp [h]

/-- Claim C2: every cache reset — a repeated `Setup`, a rebinding of the
measured input (`SetMeasured` / `SetMeasuredCov`), or a change of the
systematics-inclusion policy — leaves the engine with the freshly constructed
cache: all seven validity flags false and every derived vector and matrix at
its size-1 zero-filled initial value, so no previously computed result,
covariance, weight, toy error matrix or bias is observable until it is
recomputed. -/
theorem claim2_cache_reset_clears_everything (s : UnfoldState) (r : Response)
    (m : Vec) (c : Mat) (d : Systematics) :
    (Setup s r m).cache = Cache.init ∧
    (SetMeasured s m).cache = Cache.init ∧
    (SetMeasuredCov s c).cache = Cache.init ∧
    (d ≠ s._dosys → (IncludeSystematics s d).cache = Cache.init) ∧
    (Cache.init._unfolded = false ∧ Cache.init._fail = false ∧
      Cache.init._haveCov = false ∧ Cache.init._haveWgt = false ∧
      Cache.init._haveErrors = false ∧ Cache.init._have_err_mat = false ∧
      Cache.init._haveBias = false) ∧
    (Cache.init._rec = [0] ∧ Cache.init._cov = [[0]] ∧ Cache.init._wgt = [[0]] ∧
      Cache.init._variances = [0] ∧ Cache.init._err_mat = [[0]] ∧
      Cache.init._bias = [0] ∧ Cache.init._sigbias = [0] ∧
      Cache.init._vMes = none ∧ Cache.init._eMes = none) := by
  refine ⟨rfl, rfl, rfl, ?_, ?_, ?_⟩
  · intro hd
    simp [IncludeSystematics, hd, ClearCache]
  · exact ⟨rfl, rfl, rfl, rfl, rfl, rfl, rfl⟩
  · exact ⟨rfl, rfl, rfl, rfl, rfl, rfl, rfl, rfl, rfl⟩

/-- Witness for claim C2 at a concrete state and a concrete policy change. -/
theorem claim2_cache_reset_clears_everything_witness :
    Systematics.kAll ≠ failState._dosys ∧
    (IncludeSystematics failState Systematics.kAll).cache = Cache.init :=
  ⟨by simp [failState], (claim2_cache_reset_clears_everything failState
    ⟨2, 2, false⟩ [1, 2] [[1]] Systematics.kAll).2.2.2.1 (by simp [failState])⟩

/-- Claim C1: the sticky-failure behaviour evaluated on a two-truth-bin engine
whose algorithm fails.  The failed `UnfoldWithErrors` sets the sticky fail
flag after one algorithm invocation; the next `UnfoldWithErrors` returns false
and leaves the state (and the invocation count) untouched; `Vunfold` also does
not re-invoke the algorithm — but it returns the cache's initial 1-element
zero vector, not a truth-length (2-element) one: the truth-length resize is
guarded by `_rec.GetNrows() == 0`, which the freshly constructed cache
(`_rec(1)`) never satisfies. -/
theorem claim1_sticky_fail_short_circuit_eval :
    UnfoldWithErrors failStrategy failState ErrorTreatment.kErrors false
        = some (false, failedState) ∧
    failedState.cache._fail = true ∧
    failedState.cache._unfolded = false ∧
    failedState.unfoldCalls = 1 ∧
    UnfoldWithErrors failStrategy failedState ErrorTreatment.kCovariance false
        = some (false, failedState) ∧
    Vunfold failStrategy failedState = ([0], failedState) ∧
    failedState._nt = 2 ∧
    ([0] : Vec).length = 1 := by
  refine ⟨?_, rfl, rfl, rfl, ?_, ?_, rfl, rfl⟩
  · simp [UnfoldWithErrors, callUnfold, Vmeasured, failStrategy, failState,
      failedState, setFail, Cache.init]
  · simp [UnfoldWithErrors, failedState, failState, Cache.init]
  · simp [Vunfold, setFail, failedState, failState, Cache.init]

/-- Claim C5: `GetErrMat` evaluated on a two-truth-bin engine with two toys
whose toy results are `(1,2)` and `(3,4)`.  The sample covariance of these
toys is the 2×2 matrix with every entry 2, but the cache ends up with the 1×1
matrix `[[2]]` — the trailing `ForceRecalculation` of `RunToys` shrank
`_err_mat` back to its initial size after `GetErrMat` had resized it, so only
the (0,0) entry of the final write loop lands — while `_have_err_mat` is
nevertheless set.  With a single toy configured, `GetErrMat` returns without
touching anything. -/
theorem claim5_getErrMat_toy_covariance_eval :
    toyState._nt = 2 ∧ toyState._NToys = 2 ∧
    (GetErrMat toyStrategy toyState).cache._err_mat = [[2]] ∧
    (GetErrMat toyStrategy toyState).cache._have_err_mat = true ∧
    (GetErrMat toyStrategy toyState).cache._err_mat.length = 1 ∧
    errMatEntry 2 [4, 6] [[10, 14], [14, 20]] 0 1 = 2 ∧
    GetErrMat toyStrategy { toyState with _NToys := 1 }
        = { toyState with _NToys := 1 } ∧
    ({ toyState with _NToys := 1 }).cache._have_err_mat = false := by
  refine ⟨rfl, rfl, ?_, ?_, ?_, ?_, ?_, rfl⟩
  · simp [GetErrMat, RunToy, RunToysTH1, runToyStep, ForceRecalculation, Vmeasured,
      Vunfold, callUnfold, setFail, Cache.init, toyStrategy, toyState, vecGet, vecSet,
      matGet, matSet, zeroVec, zeroMat, resizeMat, errMatEntry, List.range_succ]
    norm_num
  · simp [GetErrMat, RunToy, RunToysTH1, runToyStep, ForceRecalculation, Vmeasured,
      Vunfold, callUnfold, setFail, Cache.init, toyStrategy, toyState, vecGet, vecSet,
      matGet, matSet, zeroVec, zeroMat, resizeMat, errMatEntry, List.range_succ]
  · simp [GetErrMat, RunToy, RunToysTH1, runToyStep, ForceRecalculation, Vmeasured,
      Vunfold, callUnfold, setFail, Cache.init, toyStrategy, toyState, vecGet, vecSet,
      matGet, matSet, zeroVec, zeroMat, resizeMat, errMatEntry, List.range_succ]
  · norm_num [errMatEntry, vecGet, matGet]
  · simp [GetErrMat, toyState]

/-- Counterexample to claim C3 as stated: requesting the toy-covariance
treatment on an unfolded state (previous treatment `kNoError`) does not leave
the result vector and the unfolded flag unchanged — the toy loop forces full
cache recalculations, re-runs the unfolding once per toy (ghost counter 0 → 2)
and leaves the engine with a fresh cache: `_unfolded` false and the result
vector reset. -/
theorem claim3_treatment_change_counterexample :
    unfoldedToyState.cache._unfolded = true ∧
    unfoldedToyState._withError ≠ ErrorTreatment.kCovToy ∧
    unfoldedToyState.unfoldCalls = 0 ∧
    unfoldedToyState.cache._rec = [5, 6] ∧
    UnfoldWithErrors toyStrategy unfoldedToyState ErrorTreatment.kCovToy false
        = some (true, covToyAfterState) ∧
    covToyAfterState.cache._unfolded = false ∧
    covToyAfterState.cache._rec = [0] ∧
    covToyAfterState.unfoldCalls = 2 := by
  refine ⟨rfl, by simp [unfoldedToyState, toyState], rfl, rfl, ?_, rfl, rfl, rfl⟩
  simp [UnfoldWithErrors, uweDispatch, uweSetTreatment, GetErrMat, RunToy, RunToysTH1, runToyStep,
    ForceRecalculation, Vmeasured, Vunfold, callUnfold, setFail, Cache.init,
    toyStrategy, toyState, unfoldedToyState, covToyAfterState, vecGet, vecSet,
    matGet, matSet, zeroVec, zeroMat, resizeMat, errMatEntry, List.range_succ]
  norm_num

/-- Claim C6: the Asimov double-toy loop evaluated with `ntoys = 2` on a
one-bin identity response with nominal truth `(4)`.  The four recorded
deviations are `4 − unfolded`, i.e. absolute deviations from the NOMINAL
truth (the truth is never randomized — only the about-to-be-overwritten
measured vector is), and the algorithm runs only twice (once per outer
repetition: the inner repetitions after the first reuse the cached result),
duplicating each deviation; `CalculateBias` then averages them into the bias
vector `(-5/2)`. -/
theorem claim6_runBiasAsimovToys_eval :
    asimovStrategy.vtruth = [4] ∧
    (RunBiasAsimovToys asimovStrategy asimovState 2).1 = [[-1], [-1], [-4], [-4]] ∧
    (RunBiasAsimovToys asimovStrategy asimovState 2).2.unfoldCalls = 2 ∧
    asimovBias 1 [[-1], [-1], [-4], [-4]] = [-5 / 2] := by
  refine ⟨rfl, ?_, ?_, ?_⟩
  · simp [RunBiasAsimovToys, runBiasOuter, runBiasInner, ForceRecalculation,
      Vmeasured, Vunfold, callUnfold, setFail, Cache.init, asimovStrategy,
      asimovState, subTV, vecGet, List.range_succ]
  · simp [RunBiasAsimovToys, runBiasOuter, runBiasInner, ForceRecalculation,
      Vmeasured, Vunfold, callUnfold, setFail, Cache.init, asimovStrategy,
      asimovState, subTV, vecGet, List.range_succ]
  · simp [asimovBias, vecGet, List.range_succ]
    norm_num

/-- Every per-bin error entry is non-negative: each branch is a square root
(or the unused 0 of the unrecognised treatment). -/
theorem euEntry_nonneg (s : UnfoldState) (t : ErrorTreatment) (i : ℕ) :
    0 ≤ euEntry s t i := by
  cases t <;> simp [euEntry, Real.sqrt_nonneg]

/-- Claim C9: whenever `EunfoldV` returns an error vector — in particular for
every treatment whose `UnfoldWithErrors` succeeds — every entry of that vector
is non-negative: on success each entry is the square root of an absolute
value, and on failure the zero-initialised vector is returned. -/
theorem claim9_eunfoldV_nonneg (st : Strategy) (s : UnfoldState)
    (t : ErrorTreatment) (v : List ℝ) (s1 : UnfoldState)
    (h : EunfoldV st s t = some (v, s1)) :
    ∀ x ∈ v, 0 ≤ x := by
  unfold EunfoldV at h
  rcases hu : UnfoldWithErrors st s t false with _ | ⟨ok, s2⟩ <;> rw [hu] at h
  · simp at h
  · cases ok
    · simp only [Option.some.injEq, Prod.mk.injEq] at h
      intro x hx
      rw [← h.1] at hx
      rw [List.eq_of_mem_replicate hx]
    · cases t
      case kDefault => exact absurd h (by simp)
      all_goals
        simp only [Option.some.injEq, Prod.mk.injEq] at h
        intro x hx
        rw [← h.1] at hx
        rcases List.mem_map.mp hx with ⟨i, _, hxeq⟩
        rw [← hxeq]
        exact euEntry_nonneg ..

/-- Witness for claim C9: the one-bin unfolded engine under the `kNoError`
treatment returns the singleton error vector `sqrt|4|`, and it is
non-negative. -/
theorem claim9_eunfoldV_nonneg_witness :
    EunfoldV oneStrategy oneState ErrorTreatment.kNoError = some (oneErrVec, oneState) ∧
    ∀ x ∈ oneErrVec, 0 ≤ x := by
  have h : EunfoldV oneStrategy oneState ErrorTreatment.kNoError
      = some (oneErrVec, oneState) := by
    simp [EunfoldV, UnfoldWithErrors, uweDispatch, uweSetTreatment, oneStrategy, oneState, Cache.init,
      euEntry, oneErrVec, vecGet, List.range_succ]
  exact ⟨h, claim9_eunfoldV_nonneg oneStrategy oneState ErrorTreatment.kNoError
    oneErrVec oneState h⟩

/-- A fold of guarded diagonal writes preserves the row count and the row
lengths. -/
theorem foldl_diagStep_shape (g : ℕ → Mat → Mat)
    (hg : ∀ m i, (g i m).length = m.length ∧
      ∀ a, ((g i m).getD a []).length = (m.getD a []).length) :
    ∀ (l : List ℕ) (m : Mat), ((l.foldl (fun m i => g i m) m).length = m.length ∧
      ∀ a, (((l.foldl (fun m i => g i m) m)).getD a []).length = (m.getD a []).length) := by
  intro l
  induction l with
  | nil => intro m; exact ⟨rfl, fun _ => rfl⟩
  | cons x xs ih =>
    intro m
    simp only [List.foldl_cons]
    refine ⟨(ih (g x m)).1.trans (hg m x).1, fun a => ((ih (g x m)).2 a).trans ((hg m x).2 a)⟩

/-- The guarded diagonal fold of `Wunfold(kNoError)`, characterised entry by
entry: reciprocal of the result bin on the diagonal where the result is
nonzero and the index was visited, 0 everywhere else. -/
theorem wdiag_fold_get (rec : Vec) (n : ℕ) :
    ∀ (k : ℕ), k ≤ n → ∀ (a b : ℕ),
      matGet ((List.range k).foldl
        (fun m i => if vecGet rec i ≠ 0 then matSet m i i (1 / vecGet rec i) else m)
        (zeroMat n n)) a b
      = if a = b ∧ a < k ∧ vecGet rec a ≠ 0 then 1 / vecGet rec a else 0 := by
  have hshape : ∀ (k : ℕ),
      ((List.range k).foldl
        (fun m i => if vecGet rec i ≠ 0 then matSet m i i (1 / vecGet rec i) else m)
        (zeroMat n n)).length = n ∧
      ∀ a, (((List.range k).foldl
        (fun m i => if vecGet rec i ≠ 0 then matSet m i i (1 / vecGet rec i) else m)
        (zeroMat n n)).getD a []).length = ((zeroMat n n).getD a []).length := by
    intro k
    have h := foldl_diagStep_shape
      (fun i m => if vecGet rec i ≠ 0 then matSet m i i (1 / vecGet rec i) else m)
      (fun m i => by
        dsimp only
        split
        · exact ⟨matSet_length .., fun a => matSet_rowLength ..⟩
        · exact ⟨rfl, fun _ => rfl⟩)
      (List.range k) (zeroMat n n)
    exact ⟨h.1.trans (by simp [zeroMat]), h.2⟩
  intro k
  induction k with
  | zero => intro _ a b; simp [matGet_zeroMat]
  | succ j ih =>
    intro hk a b
    rw [List.range_succ, List.foldl_append]
    simp only [List.foldl_cons, List.foldl_nil]
    have hj : j < n := hk
    have hlen := (hshape j).1
    have hrow := (hshape j).2 j
    have hrowlen : ((((List.range j).foldl
        (fun m i => if vecGet rec i ≠ 0 then matSet m i i (1 / vecGet rec i) else m)
        (zeroMat n n))).getD j []).length = n := by
      rw [hrow]
      simp only [zeroMat]
      rw [List.getD_eq_getElem?_getD, List.getElem?_replicate, if_pos hj]
      simp [zeroVec]
    by_cases hz : vecGet rec j ≠ 0
    · rw [if_pos hz, matGet_matSet, hlen, hrowlen]
      by_cases hab : j = a ∧ j = b
      · rcases hab with ⟨rfl, rfl⟩
        simp [hj, hz]
      · rw [if_neg (by
          intro hcon
          exact hab ⟨hcon.1, hcon.2.1⟩), ih (le_of_lt hk)]
        by_cases h1 : a = b
        · subst h1
          by_cases h2 : a < j
          · simp [h2, lt_trans h2 (Nat.lt_succ_self j)]
          · have haj : a ≠ j := by
              intro hcon
              exact hab ⟨hcon.symm, hcon.symm⟩
            have : ¬ a < j + 1 := by
              intro hcon
              rcases Nat.lt_succ_iff_lt_or_eq.mp hcon with h | h
              · exact h2 h
              · exact haj h
            simp [h2, this]
        · simp [h1]
    · rw [if_neg hz, ih (le_of_lt hk)]
      by_cases h1 : a = b
      · subst h1
        by_cases h3 : a < j
        · simp [h3, lt_trans h3 (Nat.lt_succ_self j)]
        · by_cases h4 : a < j + 1
          · have haj : a = j := by omega
            subst haj
            simp only [ne_eq, not_not] at hz
            simp [hz]
          · simp [h3, h4]
      · simp [h1]

/-- Claim C10: on an unfolded state, `Wunfold(kNoError)` delivers the
`nt×nt` matrix whose (i,i) entry is `1/result(i)` for every bin with nonzero
cached result and 0 for every bin whose result entry is exactly zero (and 0
off the diagonal): the reciprocal is guarded and never taken of a zero bin
content. -/
theorem claim10_wunfold_noerror_guarded_diagonal (st : Strategy) (s : UnfoldState)
    (hu : s.cache._unfolded = true) (a b : ℕ) (ha : a < s._nt) (_hb : b < s._nt) :
    (Wunfold st s ErrorTreatment.kNoError).map (fun r => matGet r.1 a b)
      = some (if a = b ∧ vecGet s.cache._rec a ≠ 0
          then 1 / vecGet s.cache._rec a else 0) := by
  have hdisp : UnfoldWithErrors st s ErrorTreatment.kNoError true
      = some (true, uweSetTreatment s ErrorTreatment.kNoError) := by
    unfold UnfoldWithErrors
    rw [hu]
    simp only [Bool.true_eq_false, if_false]
    unfold uweDispatch
    simp
  unfold Wunfold
  rw [hdisp]
  dsimp only [Option.map_some']
  rw [Option.some.injEq]
  rw [uweSetTreatment_nt, uweSetTreatment_rec]
  rw [wdiag_fold_get s.cache._rec s._nt s._nt (le_refl _) a b]
  by_cases h1 : a = b
  · subst h1
    simp [ha]
  · simp [h1]

/-- Witness for claim C10: on the two-bin state unfolded to `(3, 0)`, the
weight matrix entry (0,0) is `1/3` (formula with the guard true) and the
entry (1,1) falls under the zero guard. -/
theorem claim10_wunfold_noerror_guarded_diagonal_witness :
    (wState.cache._unfolded = true ∧ (0 : ℕ) < wState._nt ∧ (1 : ℕ) < wState._nt) ∧
    (Wunfold oneStrategy wState ErrorTreatment.kNoError).map (fun r => matGet r.1 0 0)
      = some (if (0 : ℕ) = 0 ∧ vecGet wState.cache._rec 0 ≠ 0
          then 1 / vecGet wState.cache._rec 0 else 0) ∧
    (Wunfold oneStrategy wState ErrorTreatment.kNoError).map (fun r => matGet r.1 1 1)
      = some (if (1 : ℕ) = 1 ∧ vecGet wState.cache._rec 1 ≠ 0
          then 1 / vecGet wState.cache._rec 1 else 0) :=
  ⟨⟨rfl, by norm_num [wState], by norm_num [wState]⟩,
    claim10_wunfold_noerror_guarded_diagonal oneStrategy wState rfl 0 0
      (by norm_num [wState]) (by norm_num [wState]),
    claim10_wunfold_noerror_guarded_diagonal oneStrategy wState rfl 1 1
      (by norm_num [wState]) (by norm_num [wState])⟩

/-- Claim C3 (amended): for every treatment `t` except the toy one
(`kCovToy`, which reruns the unfolding and resets the cache — see the
counterexample), `UnfoldWithErrors(t)` on an unfolded state with a differing
stored treatment either raises — exactly when `t = kRooFit`, via the
`kErrors` configuration guard of `GetErrorsCovariance` on this engine — or
invalidates only the error-derived validity flag (`_haveErrors`): the result
vector, the unfolded flag and the algorithm invocation count are unchanged,
the weight/toy-matrix/bias flags are exactly preserved, and the covariance
flag can only be populated, never invalidated. -/
theorem claim3_treatment_change_invalidates_only_errors (st : Strategy)
    (s : UnfoldState) (t : ErrorTreatment)
    (ht : t ≠ ErrorTreatment.kCovToy)
    (hu : s.cache._unfolded = true) (hd : s._withError ≠ t) :
    (t = ErrorTreatment.kRooFit → UnfoldWithErrors st s t false = none) ∧
    (t ≠ ErrorTreatment.kRooFit →
      ∃ ok s1, UnfoldWithErrors st s t false = some (ok, s1) ∧
        s1.cache._rec = s.cache._rec ∧
        s1.cache._unfolded = true ∧
        s1.unfoldCalls = s.unfoldCalls ∧
        s1.cache._haveWgt = s.cache._haveWgt ∧
        s1.cache._have_err_mat = s.cache._have_err_mat ∧
        s1.cache._haveBias = s.cache._haveBias ∧
        (s.cache._haveCov = true → s1.cache._haveCov = true)) := by
  have hstep : UnfoldWithErrors st s t false = uweDispatch st s t false := by
    unfold UnfoldWithErrors
    rw [hu]
    simp
  constructor
  · rintro rfl
    rw [hstep]
    unfold uweDispatch GetErrors GetErrorsCovariance
    simp [uweSetTreatment, hd]
  intro htr
  have ht4 : t = ErrorTreatment.kNoError ∨ t = ErrorTreatment.kErrors ∨
      t = ErrorTreatment.kCovariance ∨ t = ErrorTreatment.kDefault := by
    cases t
    · exact Or.inl rfl
    · exact Or.inr (Or.inl rfl)
    · exact Or.inr (Or.inr (Or.inl rfl))
    · exact absurd rfl ht
    · exact absurd rfl htr
    · exact Or.inr (Or.inr (Or.inr rfl))
  rcases ht4 with rfl | rfl | rfl | rfl
  · refine ⟨true, { s with
        cache := { s.cache with _haveErrors := false },
        _withError := ErrorTreatment.kNoError },
      ?_, rfl, hu, rfl, rfl, rfl, rfl, fun h => h⟩
    rw [hstep]
    unfold uweDispatch
    simp [uweSetTreatment, hd]
  · by_cases hc : s.cache._haveCov = true
    · refine ⟨true, { s with
          cache := { s.cache with
            _variances := (List.range s._nt).map (fun i => matGet s.cache._cov i i),
            _haveErrors := true },
          _withError := ErrorTreatment.kErrors },
        ?_, rfl, hu, rfl, rfl, rfl, rfl, fun _ => hc⟩
      rw [hstep]
      unfold uweDispatch GetErrors GetErrorsCovariance GetCov
      simp [uweSetTreatment, hd, hc]
    · simp only [Bool.not_eq_true] at hc
      rcases hcov : st.covImpl with _ | c
      · refine ⟨false, { s with
            cache := { s.cache with _haveErrors := false, _fail := true },
            _withError := ErrorTreatment.kErrors },
          ?_, rfl, hu, rfl, rfl, rfl, rfl, fun h => absurd h (by simp [hc])⟩
        rw [hstep]
        unfold uweDispatch GetErrors GetErrorsCovariance GetCov setFail
        simp [uweSetTreatment, hd, hc, hcov]
      · refine ⟨true, { s with
            cache := { s.cache with
              _cov := c,
              _haveCov := true,
              _variances := (List.range s._nt).map (fun i => matGet c i i),
              _haveErrors := true },
            _withError := ErrorTreatment.kErrors },
          ?_, rfl, hu, rfl, rfl, rfl, rfl, fun _ => rfl⟩
        rw [hstep]
        unfold uweDispatch GetErrors GetErrorsCovariance GetCov
        simp [uweSetTreatment, hd, hc, hcov]
  · by_cases hc : s.cache._haveCov = true
    · refine ⟨true, { s with
          cache := { s.cache with _haveErrors := false },
          _withError := ErrorTreatment.kCovariance },
        ?_, rfl, hu, rfl, rfl, rfl, rfl, fun _ => hc⟩
      rw [hstep]
      unfold uweDispatch GetCov
      simp [uweSetTreatment, hd, hc]
    · simp only [Bool.not_eq_true] at hc
      rcases hcov : st.covImpl with _ | c
      · refine ⟨false, { s with
            cache := { s.cache with _haveErrors := false, _fail := true },
            _withError := ErrorTreatment.kCovariance },
          ?_, rfl, hu, rfl, rfl, rfl, rfl, fun h => absurd h (by simp [hc])⟩
        rw [hstep]
        unfold uweDispatch GetCov setFail
        simp [uweSetTreatment, hd, hc, hcov]
      · refine ⟨true, { s with
            cache := { s.cache with _haveErrors := false, _cov := c, _haveCov := true },
            _withError := ErrorTreatment.kCovariance },
          ?_, rfl, hu, rfl, rfl, rfl, rfl, fun _ => rfl⟩
        rw [hstep]
        unfold uweDispatch GetCov
        simp [uweSetTreatment, hd, hc, hcov]
  · refine ⟨true, { s with
        cache := { s.cache with _haveErrors := false },
        _withError := ErrorTreatment.kDefault },
      ?_, rfl, hu, rfl, rfl, rfl, rfl, fun h => h⟩
    rw [hstep]
    unfold uweDispatch
    simp [uweSetTreatment, hd]

/-- Witness for the amended claim C3: the one-bin unfolded engine, switching
from `kNoError` to `kErrors` (the preservation branch is exercised) and to
`kRooFit` (the raise branch is exercised). -/
theorem claim3_treatment_change_invalidates_only_errors_witness :
    ((ErrorTreatment.kErrors ≠ ErrorTreatment.kCovToy) ∧
      (ErrorTreatment.kRooFit ≠ ErrorTreatment.kCovToy) ∧
      oneState.cache._unfolded = true ∧
      oneState._withError ≠ ErrorTreatment.kErrors ∧
      oneState._withError ≠ ErrorTreatment.kRooFit) ∧
    (∃ ok s1, UnfoldWithErrors oneStrategy oneState ErrorTreatment.kErrors false
        = some (ok, s1) ∧
      s1.cache._rec = oneState.cache._rec ∧
      s1.cache._unfolded = true ∧
      s1.unfoldCalls = oneState.unfoldCalls ∧
      s1.cache._haveWgt = oneState.cache._haveWgt ∧
      s1.cache._have_err_mat = oneState.cache._have_err_mat ∧
      s1.cache._haveBias = oneState.cache._haveBias ∧
      (oneState.cache._haveCov = true → s1.cache._haveCov = true)) ∧
    UnfoldWithErrors oneStrategy oneState ErrorTreatment.kRooFit false = none :=
  ⟨⟨by decide, by decide, rfl, by simp [oneState], by simp [oneState]⟩,
    (claim3_treatment_change_invalidates_only_errors oneStrategy oneState
      ErrorTreatment.kErrors (by decide) rfl (by simp [oneState])).2 (by decide),
    (claim3_treatment_change_invalidates_only_errors oneStrategy oneState
      ErrorTreatment.kRooFit (by decide) rfl (by simp [oneState])).1 rfl⟩

/-- `GetErrorsCovariance` never changes the unfolded flag, the stored
treatment, the truth-bin count or the result vector. -/
theorem getErrorsCovariance_preserves (st : Strategy) (s s3 : UnfoldState)
    (h : GetErrorsCovariance st s = some s3) :
    s3.cache._unfolded = s.cache._unfolded ∧ s3._withError = s._withError ∧
      s3._nt = s._nt ∧ s3.cache._rec = s.cache._rec := by
  unfold GetErrorsCovariance GetCov at h
  by_cases hw : s._withError ≠ ErrorTreatment.kErrors
  · rw [if_pos hw] at h
    exact absurd h (by simp)
  · rw [if_neg hw] at h
    by_cases hc : s.cache._haveCov = false
    · rcases hcov : st.covImpl with _ | c <;> rw [hcov] at h <;> simp [hc] at h <;>
        rw [← h] <;> exact ⟨rfl, rfl, rfl, rfl⟩
    · simp [hc] at h
      rw [← h]
      exact ⟨rfl, rfl, rfl, rfl⟩

/-- Inverting a successful `uweDispatch` for the diagonal treatments: the
returned state keeps the unfolded flag, stores the requested treatment, and
for `kErrors` carries a set `_haveErrors`. -/
theorem uweDispatch_true_inversion (st : Strategy) (s2 : UnfoldState)
    (t : ErrorTreatment) (s1 : UnfoldState)
    (ht : t = ErrorTreatment.kNoError ∨ t = ErrorTreatment.kErrors)
    (hu2 : s2.cache._unfolded = true)
    (h : uweDispatch st s2 t false = some (true, s1)) :
    s1.cache._unfolded = true ∧ s1._withError = t ∧
      (t = ErrorTreatment.kErrors → s1.cache._haveErrors = true) := by
  rcases ht with rfl | rfl
  · unfold uweDispatch at h
    simp only [Bool.false_eq_true, false_and, if_false, Option.some.injEq,
      Prod.mk.injEq, true_and] at h
    rw [← h]
    exact ⟨(uweSetTreatment_unfolded ..).trans hu2, uweSetTreatment_withError ..,
      by simp⟩
  · unfold uweDispatch at h
    simp only [Bool.false_eq_true, false_and, if_false] at h
    by_cases hhe : (uweSetTreatment s2 ErrorTreatment.kErrors).cache._haveErrors = false
    · rw [if_pos hhe] at h
      rcases hge : GetErrors st (uweSetTreatment s2 ErrorTreatment.kErrors)
        with _ | s3 <;> rw [hge] at h
      · exact absurd h (by simp)
      · simp only [Option.some.injEq, Prod.mk.injEq] at h
        have hok := h.1
        have hs1 : s3 = s1 := by
          rw [← h.2, if_pos hok]
        subst hs1
        rcases getErrorsCovariance_preserves st
          (uweSetTreatment s2 ErrorTreatment.kErrors) s3 hge with ⟨h1, h2, _, _⟩
        exact ⟨h1.trans ((uweSetTreatment_unfolded ..).trans hu2),
          h2.trans (uweSetTreatment_withError ..), fun _ => hok⟩
    · rw [if_neg hhe] at h
      simp only [Option.some.injEq, Prod.mk.injEq] at h
      have hok := h.1
      have hs1 : uweSetTreatment s2 ErrorTreatment.kErrors = s1 := by
        rw [← h.2, if_pos hok]
      rw [← hs1]
      exact ⟨(uweSetTreatment_unfolded ..).trans hu2, uweSetTreatment_withError ..,
        fun _ => hok⟩

/-- Inverting a successful `UnfoldWithErrors` for the diagonal treatments. -/
theorem uwe_true_inversion (st : Strategy) (s : UnfoldState) (t : ErrorTreatment)
    (s1 : UnfoldState)
    (ht : t = ErrorTreatment.kNoError ∨ t = ErrorTreatment.kErrors)
    (h : UnfoldWithErrors st s t false = some (true, s1)) :
    s1.cache._unfolded = true ∧ s1._withError = t ∧
      (t = ErrorTreatment.kErrors → s1.cache._haveErrors = true) := by
  unfold UnfoldWithErrors at h
  by_cases hu : s.cache._unfolded = false
  · rw [if_pos hu] at h
    by_cases hf : s.cache._fail = true
    · rw [if_pos hf] at h
      exact absurd h (by simp)
    · rw [if_neg hf] at h
      by_cases hu2 : (callUnfold st s).cache._unfolded = false
      · rw [if_pos hu2] at h
        exact absurd h (by simp)
      · rw [if_neg hu2] at h
        exact uweDispatch_true_inversion st (callUnfold st s) t s1 ht
          (by revert hu2; cases (callUnfold st s).cache._unfolded <;> simp) h
  · rw [if_neg hu] at h
    exact uweDispatch_true_inversion st s t s1 ht
      (by revert hu; cases s.cache._unfolded <;> simp) h

/-- A second `UnfoldWithErrors` call with the treatment already stored and its
flag already populated succeeds without changing the state. -/
theorem uwe_idempotent (st : Strategy) (s1 : UnfoldState) (t : ErrorTreatment)
    (ht : t = ErrorTreatment.kNoError ∨ t = ErrorTreatment.kErrors)
    (hu : s1.cache._unfolded = true) (hw : s1._withError = t)
    (he : t = ErrorTreatment.kErrors → s1.cache._haveErrors = true) :
    UnfoldWithErrors st s1 t false = some (true, s1) := by
  unfold UnfoldWithErrors
  rw [hu]
  simp only [Bool.true_eq_false, if_false]
  unfold uweDispatch
  rw [uweSetTreatment_self s1 t hw]
  rcases ht with rfl | rfl
  · simp
  · simp [he rfl]

/-- A fold over an index range only consults the body at indices inside the
range. -/
theorem foldl_range_congr {α : Type} (f g : α → ℕ → α) (n : ℕ) (a : α)
    (h : ∀ acc i, i < n → f acc i = g acc i) :
    (List.range n).foldl f a = (List.range n).foldl g a := by
  induction n generalizing a with
  | zero => rfl
  | succ k ih =>
    rw [List.range_succ, List.foldl_append, List.foldl_append]
    simp only [List.foldl_cons, List.foldl_nil]
    rw [ih a (fun acc i hi => h acc i (lt_trans hi (Nat.lt_succ_self k)))]
    exact h _ k (Nat.lt_succ_self k)

/-- Claim C8: for the diagonal error treatments (`kNoError`, `kErrors`), a
failing `UnfoldWithErrors` makes `Chi2` return the sentinel `-1`; a successful
one with the sticky fail flag clear makes `Chi2` return the sum over truth
bins with strictly positive per-bin error of `((result − reference)/σ)²`,
skipping every bin whose error is zero (or negative); a set sticky fail flag
also yields `-1` instead of raising. -/
theorem claim8_chi2_diagonal_formula (st : Strategy) (s : UnfoldState)
    (hTrue : Vec) (t : ErrorTreatment)
    (ht : t = ErrorTreatment.kNoError ∨ t = ErrorTreatment.kErrors) :
    (∀ s1, UnfoldWithErrors st s t false = some (false, s1) →
      Chi2 st s hTrue t = some (-1, s1)) ∧
    (∀ s1, UnfoldWithErrors st s t false = some (true, s1) →
      s1.cache._fail = false →
      Chi2 st s hTrue t = some (chi2DiagSpec s1 hTrue t, s1)) ∧
    (∀ s1, UnfoldWithErrors st s t false = some (true, s1) →
      s1.cache._fail = true →
      Chi2 st s hTrue t = some (-1, s1)) := by
  have hnotcov : ¬(t = ErrorTreatment.kCovariance ∨ t = ErrorTreatment.kCovToy) := by
    rcases ht with rfl | rfl <;> simp
  have htnd : t ≠ ErrorTreatment.kDefault := by
    rcases ht with rfl | rfl <;> simp
  have heun : ∀ s1, UnfoldWithErrors st s1 t false = some (true, s1) →
      EunfoldV st s1 t = some ((List.range s1._nt).map (euEntry s1 t), s1) := by
    intro s1 hidem
    unfold EunfoldV
    rw [hidem]
    cases t
    case kDefault => exact absurd rfl htnd
    all_goals rfl
  refine ⟨?_, ?_, ?_⟩
  · intro s1 h
    unfold Chi2
    rw [h]
  · intro s1 h hfail
    rcases uwe_true_inversion st s t s1 ht h with ⟨hu1, hw1, he1⟩
    have hidem := uwe_idempotent st s1 t ht hu1 hw1 he1
    unfold Chi2
    rw [h]
    simp only [if_neg hnotcov]
    rw [heun s1 hidem]
    simp only [hfail, Bool.false_eq_true, if_false]
    rw [Option.some.injEq, Prod.mk.injEq]
    refine ⟨?_, rfl⟩
    rw [foldl_range_congr _ (fun c i => c +
      if 0 < euEntry s1 t i then
        (((vecGet (subVecN s1._nt s1.cache._rec hTrue) i : ℚ) : ℝ) / euEntry s1 t i) ^ 2
      else 0) s1._nt 0
      (fun acc i hi => by
        dsimp only
        rw [getD_map_range _ _ _ _ hi]
        by_cases hpos : euEntry s1 t i ≤ 0
        · rw [if_pos hpos, if_neg (fun hcon => absurd hpos (not_le.mpr hcon))]
          rw [add_zero]
        · rw [if_neg hpos, if_pos (lt_of_not_le hpos), pow_two])]
    rw [foldl_range_add]
    rw [zero_add]
    rfl
  · intro s1 h hfail
    rcases uwe_true_inversion st s t s1 ht h with ⟨hu1, hw1, he1⟩
    have hidem := uwe_idempotent st s1 t ht hu1 hw1 he1
    unfold Chi2
    rw [h]
    simp only [if_neg hnotcov]
    rw [heun s1 hidem]
    simp [hfail]

/-- Witness for claim C8: the one-bin unfolded engine under `kNoError`, with
reference truth `(1)`. -/
theorem claim8_chi2_diagonal_formula_witness :
    ((ErrorTreatment.kNoError = ErrorTreatment.kNoError ∨
        ErrorTreatment.kNoError = ErrorTreatment.kErrors) ∧
      UnfoldWithErrors oneStrategy oneState ErrorTreatment.kNoError false
        = some (true, oneState) ∧
      oneState.cache._fail = false) ∧
    Chi2 oneStrategy oneState [1] ErrorTreatment.kNoError
      = some (chi2DiagSpec oneState [1] ErrorTreatment.kNoError, oneState) := by
  have huwe : UnfoldWithErrors oneStrategy oneState ErrorTreatment.kNoError false
      = some (true, oneState) := by
    simp [UnfoldWithErrors, uweDispatch, uweSetTreatment, oneState, Cache.init]
  exact ⟨⟨Or.inl rfl, huwe, rfl⟩,
    (claim8_chi2_diagonal_formula oneStrategy oneState [1] ErrorTreatment.kNoError
      (Or.inl rfl)).2.1 oneState huwe rfl⟩

/-- Row lengths of the zero matrix. -/
theorem zeroMat_rowLength (r c a : ℕ) :
    ((zeroMat r c).getD a []).length = if a < r then c else 0 := by
  simp only [zeroMat, List.getD_eq_getElem?_getD, List.getElem?_replicate]
  split <;> simp [zeroVec]

/-- One pull step preserves the pull-matrix row count, its row lengths and
the accumulator length. -/
theorem pullStep_shape (truth tui tei : Vec) (i : ℕ) (acc : Mat × Vec) (x : ℕ) :
    (pullStep truth tui tei i acc x).1.length = acc.1.length ∧
    (∀ a, ((pullStep truth tui tei i acc x).1.getD a []).length
      = (acc.1.getD a []).length) ∧
    (pullStep truth tui tei i acc x).2.length = acc.2.length := by
  unfold pullStep
  split
  · exact ⟨matSet_length .., fun a => matSet_rowLength ..,
      by simp [vecSet]⟩
  · exact ⟨rfl, fun _ => rfl, rfl⟩

/-- The inner closure loop preserves the shapes of its accumulators. -/
theorem closure_inner_shape (truth tui tei : Vec) (i : ℕ) (l : List ℕ) :
    ∀ acc : Mat × Vec,
      ((l.foldl (pullStep truth tui tei i) acc).1.length = acc.1.length) ∧
      (∀ a, (((l.foldl (pullStep truth tui tei i) acc).1.getD a []).length
        = (acc.1.getD a []).length)) ∧
      ((l.foldl (pullStep truth tui tei i) acc).2.length = acc.2.length) := by
  induction l with
  | nil => intro acc; exact ⟨rfl, fun _ => rfl, rfl⟩
  | cons x xs ih =>
    intro acc
    simp only [List.foldl_cons]
    obtain ⟨a1, a2, a3⟩ := ih (pullStep truth tui tei i acc x)
    obtain ⟨h1, h2, h3⟩ := pullStep_shape truth tui tei i acc x
    exact ⟨a1.trans h1, fun a => (a2 a).trans (h2 a), a3.trans h3⟩

/-- The inner closure loop over the bins of one toy, characterised entry by
entry: row `i` of the pull matrix receives the guarded pulls of the visited
bins, and the accumulator receives the guarded pulls added bin by bin. -/
theorem closure_inner_get (truth tui tei : Vec) (i : ℕ) :
    ∀ (L : ℕ) (acc : Mat × Vec), i < acc.1.length → L ≤ (acc.1.getD i []).length →
      L ≤ acc.2.length →
      (∀ a c, matGet ((List.range L).foldl (pullStep truth tui tei i) acc).1 a c
        = if i = a ∧ c < L ∧ vecGet tei c ≠ 0
          then (vecGet tui c - vecGet truth c) / vecGet tui c
          else matGet acc.1 a c) ∧
      (∀ j, vecGet ((List.range L).foldl (pullStep truth tui tei i) acc).2 j
        = if j < L ∧ vecGet tei j ≠ 0
          then vecGet acc.2 j + (vecGet tui j - vecGet truth j) / vecGet tui j
          else vecGet acc.2 j) := by
  intro L
  induction L with
  | zero =>
    intro acc _ _ _
    constructor <;> intro <;> simp
  | succ L ih =>
    intro acc hiM hrow hb
    obtain ⟨ih4, ih5⟩ := ih acc hiM (le_trans (Nat.le_succ L) hrow)
      (le_trans (Nat.le_succ L) hb)
    obtain ⟨sh1, sh2, sh3⟩ := closure_inner_shape truth tui tei i (List.range L) acc
    rw [List.range_succ, List.foldl_append]
    simp only [List.foldl_cons, List.foldl_nil]
    by_cases hg : vecGet tei L ≠ 0
    · have hbound1 : i < ((List.range L).foldl (pullStep truth tui tei i) acc).1.length := by
        rw [sh1]; exact hiM
      have hbound2 : L < (((List.range L).foldl (pullStep truth tui tei i) acc).1.getD i []).length := by
        rw [sh2 i]; omega
      have hbound3 : L < ((List.range L).foldl (pullStep truth tui tei i) acc).2.length := by
        rw [sh3]; omega
      have hstep : pullStep truth tui tei i
            ((List.range L).foldl (pullStep truth tui tei i) acc) L
          = (matSet ((List.range L).foldl (pullStep truth tui tei i) acc).1 i L
              ((vecGet tui L - vecGet truth L) / vecGet tui L),
             vecSet ((List.range L).foldl (pullStep truth tui tei i) acc).2 L
              (vecGet ((List.range L).foldl (pullStep truth tui tei i) acc).2 L +
                matGet (matSet ((List.range L).foldl (pullStep truth tui tei i) acc).1 i L
                  ((vecGet tui L - vecGet truth L) / vecGet tui L)) i L)) := by
        unfold pullStep
        rw [if_pos hg]
      have hmm : matGet (matSet ((List.range L).foldl (pullStep truth tui tei i) acc).1 i L
            ((vecGet tui L - vecGet truth L) / vecGet tui L)) i L
          = (vecGet tui L - vecGet truth L) / vecGet tui L := by
        rw [matGet_matSet, if_pos ⟨rfl, rfl, hbound1, hbound2⟩]
      constructor
      · intro a c
        rw [hstep]
        dsimp only
        rw [matGet_matSet]
        by_cases hia : i = a
        · subst hia
          by_cases hcL : L = c
          · subst hcL
            rw [if_pos ⟨rfl, rfl, hbound1, hbound2⟩,
              if_pos ⟨rfl, Nat.lt_succ_self L, hg⟩]
          · rw [if_neg (fun hcon => hcL hcon.2.1), ih4]
            by_cases hcl : c < L
            · simp [hcl, Nat.lt_succ_of_lt hcl]
            · have hcl2 : ¬ c < L + 1 := by omega
              simp [hcl, hcl2]
        · rw [if_neg (fun hcon => hia hcon.1), ih4]
          simp [hia]
      · intro j
        rw [hstep]
        dsimp only
        rw [hmm, vecGet_vecSet]
        by_cases hjL : L = j
        · subst hjL
          rw [if_pos ⟨rfl, hbound3⟩, ih5,
            if_neg (fun hcon => lt_irrefl L hcon.1),
            if_pos ⟨Nat.lt_succ_self L, hg⟩]
        · rw [if_neg (fun hcon => hjL hcon.1), ih5]
          by_cases hjl : j < L
          · simp [hjl, Nat.lt_succ_of_lt hjl]
          · have hjl2 : ¬ j < L + 1 := by omega
            simp [hjl, hjl2]
    · have hstep : pullStep truth tui tei i
            ((List.range L).foldl (pullStep truth tui tei i) acc) L
          = (List.range L).foldl (pullStep truth tui tei i) acc := by
        unfold pullStep
        rw [if_neg hg]
      rw [hstep]
      constructor
      · intro a c
        rw [ih4]
        by_cases hcL : c = L
        · subst hcL
          rw [if_neg (fun hcon => hg hcon.2.2), if_neg (fun hcon => hg hcon.2.2)]
        · by_cases hcl : c < L
          · simp [hcl, Nat.lt_succ_of_lt hcl]
          · have hcl2 : ¬ c < L + 1 := by omega
            simp [hcl, hcl2]
      · intro j
        rw [ih5]
        by_cases hjL : j = L
        · subst hjL
          rw [if_neg (fun hcon => hg hcon.2), if_neg (fun hcon => hg hcon.2)]
        · by_cases hjl : j < L
          · simp [hjl, Nat.lt_succ_of_lt hjl]
          · have hjl2 : ¬ j < L + 1 := by omega
            simp [hjl, hjl2]

/-- The closure-bias double loop after `K` processed toys: the pull matrix
holds the guarded pulls of the processed toys, and the accumulator holds
their per-bin sums. -/
theorem closure_outer_get (truth : Vec) (tu te : List Vec) (ntoys nt : ℕ)
    (hlen : ∀ i, i < ntoys → (tu.getD i []).length = nt) :
    ∀ (K : ℕ), K ≤ ntoys →
      ((closureLoopK truth tu te ntoys nt K).1.length = ntoys) ∧
      (∀ a, (((closureLoopK truth tu te ntoys nt K).1.getD a []).length
        = if a < ntoys then nt else 0)) ∧
      ((closureLoopK truth tu te ntoys nt K).2.length = nt) ∧
      (∀ a c, matGet (closureLoopK truth tu te ntoys nt K).1 a c
        = if a < K ∧ c < nt ∧ vecGet (te.getD a []) c ≠ 0
          then (vecGet (tu.getD a []) c - vecGet truth c) / vecGet (tu.getD a []) c
          else 0) ∧
      (∀ j, vecGet (closureLoopK truth tu te ntoys nt K).2 j
        = ∑ i in Finset.range K, (if j < nt ∧ vecGet (te.getD i []) j ≠ 0
            then (vecGet (tu.getD i []) j - vecGet truth j) / vecGet (tu.getD i []) j
            else 0)) := by
  intro K
  induction K with
  | zero =>
    intro _
    refine ⟨by simp [closureLoopK, zeroMat], fun a => ?_, by simp [closureLoopK, zeroVec],
      fun a c => ?_, fun j => ?_⟩
    · exact zeroMat_rowLength ntoys nt a
    · simp [closureLoopK, matGet_zeroMat]
    · simp [closureLoopK, vecGet_zeroVec]
  | succ K ih =>
    intro hK
    obtain ⟨ih1, ih2, ih3, ih4, ih5⟩ := ih (le_of_lt hK)
    have hKn : K < ntoys := hK
    have hstep : closureLoopK truth tu te ntoys nt (K + 1)
        = (List.range (tu.getD K []).length).foldl
            (pullStep truth (tu.getD K []) (te.getD K []) K)
            (closureLoopK truth tu te ntoys nt K) := by
      unfold closureLoopK
      rw [List.range_succ, List.foldl_append]
      simp only [List.foldl_cons, List.foldl_nil]
    have hLnt : (tu.getD K []).length = nt := hlen K hKn
    have hbound1 : K < (closureLoopK truth tu te ntoys nt K).1.length := by
      rw [ih1]; exact hKn
    have hbound2 : (tu.getD K []).length
        ≤ ((closureLoopK truth tu te ntoys nt K).1.getD K []).length := by
      rw [ih2 K, if_pos hKn, hLnt]
    have hbound3 : (tu.getD K []).length
        ≤ (closureLoopK truth tu te ntoys nt K).2.length := by
      rw [ih3, hLnt]
    obtain ⟨hin4, hin5⟩ := closure_inner_get truth (tu.getD K []) (te.getD K []) K
      (tu.getD K []).length (closureLoopK truth tu te ntoys nt K)
      hbound1 hbound2 hbound3
    obtain ⟨hsh1, hsh2, hsh3⟩ := closure_inner_shape truth (tu.getD K []) (te.getD K []) K
      (List.range (tu.getD K []).length) (closureLoopK truth tu te ntoys nt K)
    refine ⟨?_, fun a => ?_, ?_, fun a c => ?_, fun j => ?_⟩
    · rw [hstep, hsh1, ih1]
    · rw [hstep, hsh2 a, ih2 a]
    · rw [hstep, hsh3, ih3]
    · rw [hstep, hin4 a c, hLnt, ih4 a c]
      by_cases haK : K = a
      · subst haK
        by_cases hcg : c < nt ∧ vecGet (te.getD K []) c ≠ 0
        · rw [if_pos ⟨rfl, hcg.1, hcg.2⟩,
            if_pos ⟨Nat.lt_succ_self K, hcg.1, hcg.2⟩]
        · rw [if_neg (fun hcon => hcg ⟨hcon.2.1, hcon.2.2⟩),
            if_neg (fun hcon => lt_irrefl K hcon.1),
            if_neg (fun hcon => hcg ⟨hcon.2.1, hcon.2.2⟩)]
      · rw [if_neg (fun hcon => haK hcon.1)]
        by_cases hal : a < K
        · by_cases hcg : c < nt ∧ vecGet (te.getD a []) c ≠ 0
          · rw [if_pos ⟨hal, hcg.1, hcg.2⟩,
              if_pos ⟨Nat.lt_succ_of_lt hal, hcg.1, hcg.2⟩]
          · rw [if_neg (fun hcon => hcg ⟨hcon.2.1, hcon.2.2⟩),
              if_neg (fun hcon => hcg ⟨hcon.2.1, hcon.2.2⟩)]
        · have hal2 : ¬ a < K + 1 := by omega
          rw [if_neg (fun hcon => hal hcon.1), if_neg (fun hcon => hal2 hcon.1)]
    · rw [hstep, hin5 j, hLnt, Finset.sum_range_succ, ih5 j]
      by_cases hjg : j < nt ∧ vecGet (te.getD K []) j ≠ 0
      · rw [if_pos hjg, if_pos hjg]
      · rw [if_neg hjg, if_neg hjg, add_zero]

/-- Claim C7 (amended): the closure bias per bin is the sum of the guarded
pulls — pulls are recorded for bins whose per-bin toy ERROR entry is nonzero —
divided by `ntoys`; the spread accumulator is the sum over all `ntoys` slots
of the squared deviation of the stored pull (0 for skipped bins) from that
mean; and the bias-uncertainty is `sqrt((sum2/(ntoys−1))/ntoys)` for more
than one toy, falling back to `sqrt(sum2)` for a single toy. -/
theorem claim7_closure_bias_formulas (truth : Vec) (tu te : List Vec)
    (ntoys nt : ℕ)
    (hlen : ∀ i, i < ntoys → (tu.getD i []).length = nt)
    (j : ℕ) (hj : j < nt) :
    vecGet (closureBiasVec truth tu te ntoys nt) j
      = (∑ i in Finset.range ntoys, (if vecGet (te.getD i []) j ≠ 0
          then (vecGet (tu.getD i []) j - vecGet truth j) / vecGet (tu.getD i []) j
          else 0)) / (ntoys : ℚ) ∧
    closureSum2 truth tu te ntoys nt j
      = ∑ i in Finset.range ntoys, ((if vecGet (te.getD i []) j ≠ 0
          then (vecGet (tu.getD i []) j - vecGet truth j) / vecGet (tu.getD i []) j
          else 0) - vecGet (closureBiasVec truth tu te ntoys nt) j) ^ 2 ∧
    (closureSigbias truth tu te ntoys nt).getD j 0
      = (if 1 < ntoys then
          Real.sqrt (((closureSum2 truth tu te ntoys nt j / ((ntoys : ℚ) - 1)
            / (ntoys : ℚ) : ℚ) : ℝ))
        else Real.sqrt (((closureSum2 truth tu te ntoys nt j : ℚ) : ℝ))) := by
  have hloop : closureLoop truth tu te ntoys nt
      = closureLoopK truth tu te ntoys nt ntoys := rfl
  obtain ⟨_, _, _, hget, hsum⟩ :=
    closure_outer_get truth tu te ntoys nt hlen ntoys (le_refl ntoys)
  have hbias : vecGet (closureBiasVec truth tu te ntoys nt) j
      = (∑ i in Finset.range ntoys, (if vecGet (te.getD i []) j ≠ 0
          then (vecGet (tu.getD i []) j - vecGet truth j) / vecGet (tu.getD i []) j
          else 0)) / (ntoys : ℚ) := by
    unfold closureBiasVec
    rw [show vecGet ((List.range nt).map (fun i =>
        vecGet (closureLoop truth tu te ntoys nt).2 i / (ntoys : ℚ))) j
      = vecGet (closureLoop truth tu te ntoys nt).2 j / (ntoys : ℚ)
      from getD_map_range 0 _ nt j hj]
    rw [hloop, hsum j]
    congr 1
    refine Finset.sum_congr rfl (fun i _ => ?_)
    simp [hj]
  refine ⟨hbias, ?_, ?_⟩
  · unfold closureSum2
    rw [foldl_range_congr _ (fun c i => c +
        ((if vecGet (te.getD i []) j ≠ 0
          then (vecGet (tu.getD i []) j - vecGet truth j) / vecGet (tu.getD i []) j
          else 0) - vecGet (closureBiasVec truth tu te ntoys nt) j) ^ 2) ntoys 0
      (fun acc i hi => by
        dsimp only
        rw [show (closureLoop truth tu te ntoys nt).1 =
            (closureLoopK truth tu te ntoys nt ntoys).1 from rfl]
        rw [hget i j]
        by_cases hgi : vecGet (te.getD i []) j ≠ 0
        · rw [if_pos ⟨hi, hj, hgi⟩, if_pos hgi, pow_two]
        · rw [if_neg (fun hcon => hgi hcon.2.2), if_neg hgi, pow_two])]
    rw [foldl_range_add, zero_add]
  · unfold closureSigbias
    rw [getD_map_range (0 : ℝ) _ nt j hj]

/-- Witness for the amended claim C7: two toys on one bin, the first with
nonzero toy error (pull `1/2` recorded), the second with zero toy error (its
nonzero result `4` skipped): bias `1/4`, spread accumulator `1/8`, standard
error of the mean `sqrt((1/8)/2)`. -/
theorem claim7_closure_bias_formulas_witness :
    ((∀ i, i < 2 → (c7tu.getD i []).length = 1) ∧ (0 : ℕ) < 1) ∧
    (vecGet (closureBiasVec c7truth c7tu c7te 2 1) 0
      = (∑ i in Finset.range 2, (if vecGet (c7te.getD i []) 0 ≠ 0
          then (vecGet (c7tu.getD i []) 0 - vecGet c7truth 0)
            / vecGet (c7tu.getD i []) 0
          else 0)) / ((2 : ℕ) : ℚ) ∧
    closureSum2 c7truth c7tu c7te 2 1 0
      = ∑ i in Finset.range 2, ((if vecGet (c7te.getD i []) 0 ≠ 0
          then (vecGet (c7tu.getD i []) 0 - vecGet c7truth 0)
            / vecGet (c7tu.getD i []) 0
          else 0) - vecGet (closureBiasVec c7truth c7tu c7te 2 1) 0) ^ 2 ∧
    (closureSigbias c7truth c7tu c7te 2 1).getD 0 0
      = (if 1 < 2 then
          Real.sqrt (((closureSum2 c7truth c7tu c7te 2 1 0 / (((2 : ℕ) : ℚ) - 1)
            / ((2 : ℕ) : ℚ) : ℚ) : ℝ))
        else Real.sqrt (((closureSum2 c7truth c7tu c7te 2 1 0 : ℚ) : ℝ)))) :=
  ⟨⟨by decide, by decide⟩,
    claim7_closure_bias_formulas c7truth c7tu c7te 2 1 (by decide) 0 (by decide)⟩

/-- Counterexample to claim C7 as stated: with one toy, truth `(1)`,
toy-unfolded value `(2)` (nonzero) but toy error `(0)`, the claim prescribes
the pull `(2−1)/2 = 1/2` as the bias, but the code guards on the toy ERROR
entry, skips the bin, and delivers bias 0. -/
theorem claim7_closure_guard_counterexample :
    closureBiasVec [1] [[2]] [[0]] 1 1 = [0] ∧
    closureBiasClaimed [1] [[2]] 1 1 = [1 / 2] ∧
    (0 : ℚ) ≠ 1 / 2 := by
  refine ⟨?_, ?_, by norm_num⟩
  · simp [closureBiasVec, closureLoop, pullStep, zeroMat, zeroVec, vecGet, vecSet,
      matGet, matSet, List.range_succ]
  · simp [closureBiasClaimed, vecGet, List.range_succ]
    norm_num

end RooUnfold
